import Mathlib

/-!
Verification development for the document-validation and type-coercion engine
declared in src/include/validator.h (class validator_t).

The repository only ships the header (declarations); the bodies of
validator_t::validate_index_in_memory, validator_t::coerce_element and the six
type coercers are not part of src/.  Every behavioural definition below is
therefore modelled from the natural-language spec (spec.md), faithful to its
words, and carries a doc comment saying so.  The enum types, the function
names and the parameter lists follow the header.
-/

set_option maxHeartbeats 1000000

namespace Validator

/-- Write operation kinds, mirroring enum index_operation_t in validator.h. -/
inductive index_operation_t where
  | CREATE
  | UPSERT
  | UPDATE
  | EMPLACE
  | DELETE
deriving DecidableEq, Repr

/-- Error-tolerance policies, mirroring enum class DIRTY_VALUES in validator.h. -/
inductive DIRTY_VALUES where
  | REJECT
  | DROP
  | COERCE_OR_REJECT
  | COERCE_OR_DROP
deriving DecidableEq, Repr

/-- Modelled from the spec: the closed set of declared field types
("a tagged variant with String, Int32, Int64, Float, Bool, Geopoint and an
auto marker"; the array marker is kept separately on the descriptor). -/
inductive field_type where
  | T_STRING
  | T_INT32
  | T_INT64
  | T_FLOAT
  | T_BOOL
  | T_GEOPOINT
  | T_AUTO
deriving DecidableEq, Repr

/-- Modelled from the spec: a field descriptor — name, declared type,
array marker and optionality (the struct field of field.h is not in src/). -/
structure field where
  name : String
  ftype : field_type
  is_array : Bool
  optional : Bool
deriving DecidableEq, Repr

/-- Modelled from the spec: the Option of uint32 result convention of the
source — success carries a numeric marker, failure carries a numeric status
code and a message naming the offending field. -/
inductive Outcome where
  | ok (code : Nat)
  | err (code : Nat) (message : String)
deriving DecidableEq, Repr

def Outcome.isOk : Outcome → Bool
  | .ok _ => true
  | .err _ _ => false

def Outcome.isErr : Outcome → Bool
  | .ok _ => false
  | .err _ _ => true

/-- Modelled from the spec: the document value tree (nlohmann::json is not in
src/): null, boolean, integer, float, string, array of values, nested object.
A float is represented exactly as a decimal "mantissa and number of fraction
digits" pair: flt m e denotes m divided by 10 to the e. -/
inductive JsonVal where
  | null : JsonVal
  | bool : Bool → JsonVal
  | int : Int → JsonVal
  | flt : Int → Nat → JsonVal
  | str : String → JsonVal
  | arr : List JsonVal → JsonVal
  | obj : List (String × JsonVal) → JsonVal

def JsonVal.isNull : JsonVal → Bool
  | .null => true
  | _ => false

def JsonVal.isBool : JsonVal → Bool
  | .bool _ => true
  | _ => false

def JsonVal.isInt : JsonVal → Bool
  | .int _ => true
  | _ => false

def JsonVal.isFlt : JsonVal → Bool
  | .flt _ _ => true
  | _ => false

def JsonVal.isStr : JsonVal → Bool
  | .str _ => true
  | _ => false

def JsonVal.isArr : JsonVal → Bool
  | .arr _ => true
  | _ => false

/-- A value is numeric when it is an integer or a float. -/
def JsonVal.isNum : JsonVal → Bool
  | .int _ => true
  | .flt _ _ => true
  | _ => false

/-- Modelled from the spec: a document is an ordered mapping from field name
to value. -/
abbrev Doc := List (String × JsonVal)

/-- First value stored under a name, if any. -/
def lookupDoc : Doc → String → Option JsonVal
  | [], _ => none
  | (k, v) :: rest, n => if k = n then some v else lookupDoc rest n

/-- Replace (in place) the first entry stored under a name. -/
def setDoc : Doc → String → JsonVal → Doc
  | [], _, _ => []
  | (k, w) :: rest, n, v => if k = n then (n, v) :: rest else (k, w) :: setDoc rest n v

/-- Erase the first entry stored under a name. -/
def eraseDoc : Doc → String → Doc
  | [], _ => []
  | (k, w) :: rest, n => if k = n then rest else (k, w) :: eraseDoc rest n

def hasField (d : Doc) (n : String) : Bool := (lookupDoc d n).isSome

/-- Keys of a document are pairwise distinct (a JSON object has unique keys). -/
def nodupKeys : Doc → Bool
  | [] => true
  | (k, _) :: rest => !(rest.any (fun p => decide (p.1 = k))) && nodupKeys rest

/-! Decimal text: rendering and parsing of the numeric literals
used by the string coercer and by the numeric coercers. -/

def charToDigit (c : Char) : Nat := c.toNat - 48

def digitChar (d : Nat) : Char := Char.ofNat (48 + d)

def isDigitChar (c : Char) : Bool := decide (48 ≤ c.toNat) && decide (c.toNat ≤ 57)

/-- Big-endian digit-character list to value. -/
def digitsVal (l : List Char) : Nat := l.foldl (fun a c => 10 * a + charToDigit c) 0

/-- Little-endian digit list of a natural number, driven by explicit fuel. -/
def toRevDigits : Nat → Nat → List Nat
  | 0, _ => []
  | fuel + 1, n => if n = 0 then [] else n % 10 :: toRevDigits fuel (n / 10)

/-- Value of a little-endian digit list. -/
def parseRevDigits : List Nat → Nat
  | [] => 0
  | d :: ds => d + 10 * parseRevDigits ds

/-- Canonical decimal digit characters of a natural number, big-endian. -/
def renderNat (n : Nat) : List Char :=
  if n = 0 then ['0'] else ((toRevDigits n n).map digitChar).reverse

/-- Parse a nonempty all-digit character list; anything else is rejected. -/
def parseNatDigits (l : List Char) : Option Nat :=
  if l.isEmpty then none
  else if l.all isDigitChar then some (digitsVal l) else none

/-- Modelled from the spec: "a string is converted only if it parses as an
integer literal" — an optional leading minus sign followed by digits. -/
def parseInt (l : List Char) : Option Int :=
  match l with
  | [] => none
  | c :: cs =>
    if c = '-' then
      match parseNatDigits cs with
      | some n => some (-(n : Int))
      | none => none
    else
      match parseNatDigits (c :: cs) with
      | some n => some ((n : Int))
      | none => none

/-- Canonical textual representation of an integer. -/
def renderInt (n : Int) : List Char :=
  if n < 0 then '-' :: renderNat n.natAbs else renderNat n.natAbs

def padLeft (k : Nat) (l : List Char) : List Char :=
  List.replicate (k - l.length) '0' ++ l

/-- Canonical decimal digit characters of a float magnitude a / 10 ^ e. -/
def renderFltMag (a : Nat) (e : Nat) : List Char :=
  let mag := padLeft (e + 1) (renderNat a)
  if e = 0 then mag else mag.take (mag.length - e) ++ '.' :: mag.drop (mag.length - e)

/-- Canonical textual representation of a float m / 10 ^ e. -/
def renderFlt (m : Int) (e : Nat) : List Char :=
  if m < 0 then '-' :: renderFltMag m.natAbs e else renderFltMag m.natAbs e

/-- Resolve an exponent suffix against a mantissa/fraction-length pair. -/
def applyExp (mant : Nat) (e : Nat) (negExp : Bool) (k : Nat) : Nat × Nat :=
  if negExp then (mant, e + k)
  else if e ≤ k then (mant * 10 ^ (k - e), 0) else (mant, e - k)

/-- Parse what follows an exponent marker: an optional sign and digits. -/
def parseExpPart (mant : Nat) (e : Nat) (l : List Char) : Option (Nat × Nat) :=
  match l with
  | [] => none
  | c :: cs =>
    if c = '-' then (parseNatDigits cs).map (fun k => applyExp mant e true k)
    else if c = '+' then (parseNatDigits cs).map (fun k => applyExp mant e false k)
    else (parseNatDigits (c :: cs)).map (fun k => applyExp mant e false k)

/-- Modelled from the spec: "a string converts if it parses as a
decimal or exponential numeral" — digits, an optional fraction part, an
optional exponent part.  Returns the magnitude and fraction length. -/
def parseFltMag (l : List Char) : Option (Nat × Nat) :=
  let ip := l.takeWhile isDigitChar
  if ip.isEmpty then none else
  match l.drop ip.length with
  | [] => some (digitsVal ip, 0)
  | c :: cs =>
    if c = '.' then
      let fp := cs.takeWhile isDigitChar
      if fp.isEmpty then none else
      match cs.drop fp.length with
      | [] => some (digitsVal ip * 10 ^ fp.length + digitsVal fp, fp.length)
      | c2 :: cs2 =>
        if c2 = 'e' ∨ c2 = 'E'
        then parseExpPart (digitsVal ip * 10 ^ fp.length + digitsVal fp) fp.length cs2
        else none
    else if c = 'e' ∨ c = 'E' then parseExpPart (digitsVal ip) 0 cs
    else none

/-- Parse a signed decimal or exponential numeral into a float pair. -/
def parseFlt (l : List Char) : Option (Int × Nat) :=
  match l with
  | [] => none
  | c :: cs =>
    if c = '-' then
      match parseFltMag cs with
      | some p => some (-(p.1 : Int), p.2)
      | none => none
    else
      match parseFltMag (c :: cs) with
      | some p => some ((p.1 : Int), p.2)
      | none => none

/-! Type conversions attempted under the two coercing policies. -/

def intToString (n : Int) : String := String.mk (renderInt n)

def fltToString (m : Int) (e : Nat) : String := String.mk (renderFlt m e)

def boolToString (b : Bool) : String := if b then "true" else "false"

/-- A float m / 10 ^ e has no fractional component. -/
def fltIsIntegral (m : Int) (e : Nat) : Bool := decide (m % ((10 : Int) ^ e) = 0)

/-- Integer value of an integral float. -/
def fltToInt (m : Int) (e : Nat) : Int := m / ((10 : Int) ^ e)

def int32Min : Int := -(2 ^ 31)

def int32Max : Int := 2 ^ 31 - 1

def int64Min : Int := -(2 ^ 63)

def int64Max : Int := 2 ^ 63 - 1

def inInt32Range (n : Int) : Bool := decide (int32Min ≤ n) && decide (n ≤ int32Max)

def inInt64Range (n : Int) : Bool := decide (int64Min ≤ n) && decide (n ≤ int64Max)

/-- Modelled from the spec: to string, "any scalar (number, boolean) is
converted via its canonical textual representation". -/
def convToString : JsonVal → Option JsonVal
  | .int n => some (.str (intToString n))
  | .flt m e => some (.str (fltToString m e))
  | .bool b => some (.str (boolToString b))
  | _ => none

/-- Modelled from the spec: to a ranged integer type, "a string is converted
only if it parses as an integer literal representable in the range; a float is
converted only if it has no fractional component and fits; a boolean is not
convertible". -/
def convToIntRange (lo hi : Int) : JsonVal → Option JsonVal
  | .str s =>
    match parseInt s.data with
    | some n => if decide (lo ≤ n) && decide (n ≤ hi) then some (.int n) else none
    | none => none
  | .flt m e =>
    if fltIsIntegral m e && (decide (lo ≤ fltToInt m e) && decide (fltToInt m e ≤ hi))
    then some (.int (fltToInt m e)) else none
  | _ => none

def convToInt32 : JsonVal → Option JsonVal := convToIntRange int32Min int32Max

def convToInt64 : JsonVal → Option JsonVal := convToIntRange int64Min int64Max

/-- Modelled from the spec: to float, "a string converts if it parses as a
decimal or exponential numeral; an integer always converts". -/
def convToFloat : JsonVal → Option JsonVal
  | .int n => some (.flt n 0)
  | .str s => (parseFlt s.data).map (fun p => .flt p.1 p.2)
  | _ => none

/-- Modelled from the spec: to bool, "a string converts only if it is exactly
one of the canonical true or false tokens; numbers are not convertible". -/
def convToBool : JsonVal → Option JsonVal
  | .str s => if s = "true" then some (.bool true)
              else if s = "false" then some (.bool false) else none
  | _ => none

/-- A geopoint entry of the right numeric subtype, as a float. -/
def geoEntryToFlt : JsonVal → Option JsonVal
  | .int n => some (.flt n 0)
  | .flt m e => some (.flt m e)
  | _ => none

/-- Structurally valid geopoint shape: an array of exactly two numeric entries. -/
def geoShapeOk : JsonVal → Bool
  | .arr [a, b] => a.isNum && b.isNum
  | _ => false

/-- A geopoint that already fully matches: an array of exactly two floats. -/
def geoMatches : JsonVal → Bool
  | .arr [a, b] => a.isFlt && b.isFlt
  | _ => false

/-- Coerce the numeric subtypes of a structurally valid geopoint pair. -/
def convGeo : JsonVal → Option JsonVal
  | .arr [a, b] =>
    match geoEntryToFlt a, geoEntryToFlt b with
    | some x, some y => some (.arr [x, y])
    | _, _ => none
  | _ => none

/-! The six type coercers. -/

/-- The per-value result of a type coercer: the outcome, the value after the
call (none when the value was erased), and the erased signal the header calls
array_ele_erased. -/
structure CoerceOut where
  outcome : Outcome
  value : Option JsonVal
  array_ele_erased : Bool

def typeMismatchMsg (f expected : String) : String :=
  "Field " ++ f ++ " must be a " ++ expected ++ "."

def invalidGeopointMsg (f : String) : String :=
  "Field " ++ f ++ " must be a 2 element array representing a geopoint."

/-- Modelled from the spec: the shared mismatch handling of the coercers —
REJECT fails with a type-mismatch error and no mutation; DROP erases the value
and signals the erase; the two coercing policies attempt the type-specific
conversion and apply REJECT or DROP behaviour when the conversion fails. -/
def handleMismatch (dirty_values : DIRTY_VALUES) (v : JsonVal) (is_array : Bool)
    (conv : Option JsonVal) (msg : String) : CoerceOut :=
  match dirty_values with
  | .REJECT => ⟨.err 400 msg, some v, false⟩
  | .DROP => ⟨.ok 200, none, is_array⟩
  | .COERCE_OR_REJECT =>
    match conv with
    | some w => ⟨.ok 200, some w, false⟩
    | none => ⟨.err 400 msg, some v, false⟩
  | .COERCE_OR_DROP =>
    match conv with
    | some w => ⟨.ok 200, some w, false⟩
    | none => ⟨.ok 200, none, is_array⟩

/-- Modelled from the spec: validator_t::coerce_string (per header it alone
also receives the fallback field type; the spec assigns it no
behaviour inside the string coercer, which acts on the value alone). -/
def coerce_string (dirty_values : DIRTY_VALUES) (fallback_field_type : String)
    (a_field : field) (doc_ele : JsonVal) (is_array : Bool) : CoerceOut :=
  if doc_ele.isStr then ⟨.ok 200, some doc_ele, false⟩
  else handleMismatch dirty_values doc_ele is_array (convToString doc_ele)
       (typeMismatchMsg a_field.name "string")

/-- Modelled from the spec: validator_t::coerce_int32_t. -/
def coerce_int32_t (dirty_values : DIRTY_VALUES) (a_field : field)
    (doc_ele : JsonVal) (is_array : Bool) : CoerceOut :=
  if doc_ele.isInt then ⟨.ok 200, some doc_ele, false⟩
  else handleMismatch dirty_values doc_ele is_array (convToInt32 doc_ele)
       (typeMismatchMsg a_field.name "int32")

/-- Modelled from the spec: validator_t::coerce_int64_t. -/
def coerce_int64_t (dirty_values : DIRTY_VALUES) (a_field : field)
    (doc_ele : JsonVal) (is_array : Bool) : CoerceOut :=
  if doc_ele.isInt then ⟨.ok 200, some doc_ele, false⟩
  else handleMismatch dirty_values doc_ele is_array (convToInt64 doc_ele)
       (typeMismatchMsg a_field.name "int64")

/-- Modelled from the spec: validator_t::coerce_float. -/
def coerce_float (dirty_values : DIRTY_VALUES) (a_field : field)
    (doc_ele : JsonVal) (is_array : Bool) : CoerceOut :=
  if doc_ele.isFlt then ⟨.ok 200, some doc_ele, false⟩
  else handleMismatch dirty_values doc_ele is_array (convToFloat doc_ele)
       (typeMismatchMsg a_field.name "float")

/-- Modelled from the spec: validator_t::coerce_bool. -/
def coerce_bool (dirty_values : DIRTY_VALUES) (a_field : field)
    (doc_ele : JsonVal) (is_array : Bool) : CoerceOut :=
  if doc_ele.isBool then ⟨.ok 200, some doc_ele, false⟩
  else handleMismatch dirty_values doc_ele is_array (convToBool doc_ele)
       (typeMismatchMsg a_field.name "bool")

/-- Modelled from the spec: validator_t::coerce_geopoint — a wrong-arity array
or an array containing a non-numeric entry is always a hard failure under
every policy; numeric-subtype mismatches within a structurally valid pair
honour the configured policy. -/
def coerce_geopoint (dirty_values : DIRTY_VALUES) (a_field : field)
    (doc_ele : JsonVal) (is_array : Bool) : CoerceOut :=
  if geoMatches doc_ele then ⟨.ok 200, some doc_ele, false⟩
  else if geoShapeOk doc_ele then
    handleMismatch dirty_values doc_ele is_array (convGeo doc_ele)
      (typeMismatchMsg a_field.name "geopoint")
  else ⟨.err 400 (invalidGeopointMsg a_field.name), some doc_ele, false⟩

/-- Dispatch one value to the type coercer of a declared scalar type; the
auto marker accepts any value unchanged. -/
def coerce_scalar (ftype : field_type) (dirty_values : DIRTY_VALUES)
    (fallback_field_type : String) (a_field : field) (doc_ele : JsonVal)
    (is_array : Bool) : CoerceOut :=
  match ftype with
  | .T_STRING => coerce_string dirty_values fallback_field_type a_field doc_ele is_array
  | .T_INT32 => coerce_int32_t dirty_values a_field doc_ele is_array
  | .T_INT64 => coerce_int64_t dirty_values a_field doc_ele is_array
  | .T_FLOAT => coerce_float dirty_values a_field doc_ele is_array
  | .T_BOOL => coerce_bool dirty_values a_field doc_ele is_array
  | .T_GEOPOINT => coerce_geopoint dirty_values a_field doc_ele is_array
  | .T_AUTO => ⟨.ok 200, some doc_ele, false⟩

/-- Modelled from the spec: the array walk of the element coercer — each
element is independently routed to the type coercer; a dropped element is
erased in place; the first hard failure aborts.  Returns the outcome, the
surviving elements and whether any element was erased. -/
def coerce_arr_elems (ftype : field_type) (dirty_values : DIRTY_VALUES)
    (fallback_field_type : String) (a_field : field) :
    List JsonVal → Outcome × List JsonVal × Bool
  | [] => (.ok 200, [], false)
  | x :: xs =>
    match coerce_scalar ftype dirty_values fallback_field_type a_field x true,
          coerce_arr_elems ftype dirty_values fallback_field_type a_field xs with
    | ⟨.err c m, _, _⟩, _ => (.err c m, [], false)
    | ⟨.ok _, _, _⟩, (.err c m, _, _) => (.err c m, [], false)
    | ⟨.ok _, some w, _⟩, (.ok _, ys, er) => (.ok 200, w :: ys, er)
    | ⟨.ok _, none, _⟩, (.ok _, ys, _) => (.ok 200, ys, true)

def nullRequiredMsg (f : String) : String :=
  "Field " ++ f ++ " must not be null for a required field."

def notArrayMsg (f : String) : String :=
  "Field " ++ f ++ " must be an array."

def emptyArrayMsg (f : String) : String :=
  "Field " ++ f ++ " must not end up as an empty array for a required field."

/-- Modelled from the spec: validator_t::coerce_element — an auto-typed field
accepts any value; a structurally null value is treated as absence for
optional fields and as a failure for required fields, independent of policy;
an array-typed field requires an array value (a non-array value is removed
under the two DROP policies and is a hard failure otherwise), then walks the
elements, and an array emptied by erasure is accepted unless the field is
required; a scalar-typed field invokes its type coercer once. -/
def coerce_element (a_field : field) (document : Doc)
    (fallback_field_type : String) (dirty_values : DIRTY_VALUES) : Outcome × Doc :=
  match lookupDoc document a_field.name with
  | none => (.ok 200, document)
  | some v =>
    if a_field.ftype = field_type.T_AUTO then (.ok 200, document)
    else if v.isNull then
      if a_field.optional then (.ok 200, document)
      else (.err 400 (nullRequiredMsg a_field.name), document)
    else if a_field.is_array then
      match v with
      | .arr xs =>
        match coerce_arr_elems a_field.ftype dirty_values fallback_field_type a_field xs with
        | (.err c m, _, _) => (.err c m, document)
        | (.ok _, ys, er) =>
          if er && ys.isEmpty && !a_field.optional then
            (.err 400 (emptyArrayMsg a_field.name), document)
          else (.ok 200, setDoc document a_field.name (.arr ys))
      | _ =>
        match dirty_values with
        | .DROP => (.ok 200, eraseDoc document a_field.name)
        | .COERCE_OR_DROP => (.ok 200, eraseDoc document a_field.name)
        | _ => (.err 400 (notArrayMsg a_field.name), document)
    else
      match coerce_scalar a_field.ftype dirty_values fallback_field_type a_field v false with
      | ⟨.err c m, _, _⟩ => (.err c m, document)
      | ⟨.ok _, some w, _⟩ => (.ok 200, setDoc document a_field.name w)
      | ⟨.ok _, none, _⟩ => (.ok 200, eraseDoc document a_field.name)

/-! The document validator. -/

def missingIdMsg : String := "Document is missing the id identifier field."

def requiredMsg (f : String) : String :=
  "Field " ++ f ++ " has been declared in the schema, but is not found in the document."

def sortFieldMsg (f : String) : String :=
  "Field " ++ f ++ " is declared as the default sorting field, but is absent or not a numeric scalar."

/-- Modelled from the spec: the operations that auto-assign the reserved
identifier (DELETE requires identifier presence unconditionally, and an
update addresses an existing document by its identifier). -/
def opAutoAssignsId : index_operation_t → Bool
  | .CREATE => true
  | .UPSERT => true
  | .EMPLACE => true
  | .UPDATE => false
  | .DELETE => false

/-- The default sort field resolves to a present, numeric, non-array value. -/
def sortFieldOk (document : Doc) (n : String) : Bool :=
  match lookupDoc document n with
  | some v => v.isNum
  | none => false

/-- Modelled from the spec: the fallback field type configured for
auto-schema mode, read from its textual name (with the array suffix). -/
def parseFieldType (s : String) : Option (field_type × Bool) :=
  if s = "string" then some (.T_STRING, false)
  else if s = "int32" then some (.T_INT32, false)
  else if s = "int64" then some (.T_INT64, false)
  else if s = "float" then some (.T_FLOAT, false)
  else if s = "bool" then some (.T_BOOL, false)
  else if s = "geopoint" then some (.T_GEOPOINT, false)
  else if s = "auto" then some (.T_AUTO, false)
  else if s = "string[]" then some (.T_STRING, true)
  else if s = "int32[]" then some (.T_INT32, true)
  else if s = "int64[]" then some (.T_INT64, true)
  else if s = "float[]" then some (.T_FLOAT, true)
  else if s = "bool[]" then some (.T_BOOL, true)
  else if s = "geopoint[]" then some (.T_GEOPOINT, true)
  else none

/-- Modelled from the spec: the schema walk — the reserved identifier is not a
schema-checked field; a declared field absent from the document is skipped when
it is optional or the operation accepts partial documents (UPDATE, EMPLACE)
and is a hard failure otherwise; a present field goes through the element
coercer; the first hard failure aborts. -/
def validateFields (op : index_operation_t) (fallback_field_type : String)
    (dirty_values : DIRTY_VALUES) : List field → Doc → Outcome × Doc
  | [], document => (.ok 200, document)
  | f :: rest, document =>
    if f.name = "id" then validateFields op fallback_field_type dirty_values rest document
    else
      match lookupDoc document f.name with
      | none =>
        if f.optional = true ∨ op = index_operation_t.UPDATE ∨ op = index_operation_t.EMPLACE
        then validateFields op fallback_field_type dirty_values rest document
        else (.err 400 (requiredMsg f.name), document)
      | some _ =>
        match coerce_element f document fallback_field_type dirty_values with
        | (.ok _, document2) => validateFields op fallback_field_type dirty_values rest document2
        | (e, document2) => (e, document2)

def schemaHasName (search_schema : List field) (n : String) : Bool :=
  search_schema.any (fun f => decide (f.name = n))

/-- Document field names that are neither the identifier nor schema-declared. -/
def extraNames (document : Doc) (search_schema : List field) : List String :=
  (document.map Prod.fst).filter
    (fun n => !(decide (n = "id")) && !(schemaHasName search_schema n))

/-- Modelled from the spec: document fields not found in the schema — when a
fallback type is configured a descriptor of that type is synthesised and the
element coercer runs against it; otherwise the field is left untouched. -/
def validateExtras (fallback_field_type : String) (dirty_values : DIRTY_VALUES) :
    List String → Doc → Outcome × Doc
  | [], document => (.ok 200, document)
  | n :: rest, document =>
    match parseFieldType fallback_field_type with
    | none => validateExtras fallback_field_type dirty_values rest document
    | some (ft, isArr) =>
      match lookupDoc document n with
      | none => validateExtras fallback_field_type dirty_values rest document
      | some _ =>
        match coerce_element ⟨n, ft, isArr, true⟩ document fallback_field_type dirty_values with
        | (.ok _, d2) => validateExtras fallback_field_type dirty_values rest d2
        | (e, d2) => (e, d2)

/-- Modelled from the spec: validator_t::validate_index_in_memory — DELETE
requires only the identifier; a document lacking the identifier fails when the
operation does not auto-assign it; for CREATE and UPSERT a configured default
sorting field must resolve to a present, numeric, non-array value regardless
of the dirty-value policy; then the schema walk and the non-schema fields. -/
def validate_index_in_memory (document : Doc) (seq_id : Nat)
    (default_sorting_field : String) (search_schema : List field)
    (op : index_operation_t) (fallback_field_type : String)
    (dirty_values : DIRTY_VALUES) : Outcome × Doc :=
  if op = index_operation_t.DELETE then
    if hasField document "id" then (.ok 200, document)
    else (.err 400 missingIdMsg, document)
  else if !hasField document "id" && !opAutoAssignsId op then
    (.err 400 missingIdMsg, document)
  else if (decide (op = index_operation_t.CREATE) || decide (op = index_operation_t.UPSERT))
          && !(decide (default_sorting_field = "")) && !sortFieldOk document default_sorting_field then
    (.err 400 (sortFieldMsg default_sorting_field), document)
  else
    match validateFields op fallback_field_type dirty_values search_schema document with
    | (.ok _, d2) =>
      validateExtras fallback_field_type dirty_values (extraNames document search_schema) d2
    | (e, d2) => (e, d2)

/-! What it means for a value to already match a declared type. -/

/-- A value already matches a declared scalar type (the auto marker accepts
any non-null value). -/
def scalarMatches (ftype : field_type) (v : JsonVal) : Bool :=
  match ftype with
  | .T_STRING => v.isStr
  | .T_INT32 => v.isInt
  | .T_INT64 => v.isInt
  | .T_FLOAT => v.isFlt
  | .T_BOOL => v.isBool
  | .T_GEOPOINT => geoMatches v
  | .T_AUTO => !v.isNull

/-- A value already matches a field descriptor (array fields hold an array
whose elements each match the element type). -/
def typeMatches (f : field) (v : JsonVal) : Bool :=
  if f.ftype = field_type.T_AUTO then !v.isNull
  else if f.is_array then
    match v with
    | .arr xs => xs.all (scalarMatches f.ftype)
    | _ => false
  else scalarMatches f.ftype v

/-- Every document field that is schema-declared matches its declared type
(fields outside the schema are unconstrained by this check). -/
def docFieldsMatchSchema (document : Doc) (search_schema : List field) : Bool :=
  document.all (fun p =>
    match search_schema.find? (fun f => decide (f.name = p.1)) with
    | some f => typeMatches f p.2
    | none => true)

/-- Every schema field other than the identifier is present in the document
and matches its declared type. -/
def schemaConforms (search_schema : List field) (document : Doc) : Bool :=
  search_schema.all (fun f =>
    if f.name = "id" then true
    else
      match lookupDoc document f.name with
      | some v => typeMatches f v
      | none => false)

/-- Every schema field either is the identifier, or is present and matches,
or is absent and skippable under the operation. -/
def fieldPassesUnchanged (op : index_operation_t) (document : Doc) (f : field) : Bool :=
  if f.name = "id" then true
  else
    match lookupDoc document f.name with
    | some v => typeMatches f v
    | none => f.optional || decide (op = index_operation_t.UPDATE)
              || decide (op = index_operation_t.EMPLACE)

def schemaPassesUnchanged (op : index_operation_t) (search_schema : List field)
    (document : Doc) : Bool :=
  search_schema.all (fieldPassesUnchanged op document)

/-- Every schema field present in the document matches its declared type;
absent fields are unconstrained. -/
def presentFieldsMatch (search_schema : List field) (document : Doc) : Bool :=
  search_schema.all (fun f =>
    if f.name = "id" then true
    else
      match lookupDoc document f.name with
      | some v => typeMatches f v
      | none => true)

/-- A non-schema field name passes the fallback check untouched: no fallback
type is configured, or the value under the name matches the synthesised
fallback descriptor. -/
def extraPassesUnchanged (fallback_field_type : String) (document : Doc) (n : String) : Bool :=
  match parseFieldType fallback_field_type with
  | none => true
  | some (ft, isArr) =>
    match lookupDoc document n with
    | none => true
    | some v => typeMatches ⟨n, ft, isArr, true⟩ v

def extrasPassUnchanged (fallback_field_type : String) (names : List String)
    (document : Doc) : Bool :=
  names.all (extraPassesUnchanged fallback_field_type document)

/-! Lemmas about decimal rendering and parsing. -/

theorem charToDigit_digitChar {d : Nat} (hd : d < 10) : charToDigit (digitChar d) = d := by
  interval_cases d <;> decide

theorem isDigitChar_digitChar {d : Nat} (hd : d < 10) : isDigitChar (digitChar d) = true := by
  interval_cases d <;> decide

theorem parseRevDigits_toRevDigits :
    ∀ (fuel n : Nat), n ≤ fuel → parseRevDigits (toRevDigits fuel n) = n := by
  intro fuel
  induction fuel with
  | zero => intro n hn; interval_cases n; rfl
  | succ f ih =>
    intro n hn
    by_cases h0 : n = 0
    · subst h0; simp [toRevDigits, parseRevDigits]
    · have hdiv : n / 10 ≤ f := by omega
      simp only [toRevDigits, if_neg h0, parseRevDigits, ih _ hdiv]
      omega

theorem toRevDigits_lt :
    ∀ (fuel n : Nat), ∀ d ∈ toRevDigits fuel n, d < 10 := by
  intro fuel
  induction fuel with
  | zero => intro n d hd; simp [toRevDigits] at hd
  | succ f ih =>
    intro n d hd
    by_cases h0 : n = 0
    · subst h0; simp [toRevDigits] at hd
    · simp only [toRevDigits, if_neg h0, List.mem_cons] at hd
      rcases hd with h | h
      · omega
      · exact ih _ _ h

theorem digitsVal_revmap :
    ∀ ds : List Nat, (∀ d ∈ ds, d < 10) →
      digitsVal ((ds.map digitChar).reverse) = parseRevDigits ds := by
  intro ds
  induction ds with
  | nil => intro _; rfl
  | cons d ds ih =>
    intro h
    have hd : d < 10 := h d (List.mem_cons_self d ds)
    have hds : ∀ x ∈ ds, x < 10 := fun x hx => h x (List.mem_cons_of_mem d hx)
    simp only [List.map_cons, List.reverse_cons, digitsVal, List.foldl_append, List.foldl_cons,
      List.foldl_nil]
    have : (ds.map digitChar).reverse.foldl (fun a c => 10 * a + charToDigit c) 0 =
        parseRevDigits ds := ih hds
    simp only [digitsVal] at this
    rw [this, charToDigit_digitChar hd, parseRevDigits]
    ring

theorem digitsVal_renderNat (n : Nat) : digitsVal (renderNat n) = n := by
  by_cases h0 : n = 0
  · subst h0; decide
  · simp only [renderNat, if_neg h0]
    rw [digitsVal_revmap _ (toRevDigits_lt n n), parseRevDigits_toRevDigits n n le_rfl]

theorem renderNat_ne_nil (n : Nat) : renderNat n ≠ [] := by
  by_cases h0 : n = 0
  · subst h0; simp [renderNat]
  · simp only [renderNat, if_neg h0]
    obtain ⟨m, rfl⟩ : ∃ m, n = m + 1 := ⟨n - 1, by omega⟩
    simp [toRevDigits]

theorem renderNat_all_digits (n : Nat) : (renderNat n).all isDigitChar = true := by
  by_cases h0 : n = 0
  · subst h0; decide
  · simp only [renderNat, if_neg h0, List.all_eq_true, List.mem_reverse, List.mem_map]
    rintro c ⟨d, hd, rfl⟩
    exact isDigitChar_digitChar (toRevDigits_lt n n d hd)

theorem parseNatDigits_renderNat (n : Nat) : parseNatDigits (renderNat n) = some n := by
  simp only [parseNatDigits]
  rw [if_neg, if_pos (renderNat_all_digits n), digitsVal_renderNat]
  simp [List.isEmpty_iff, renderNat_ne_nil n]

theorem exists_cons_of_ne_nil_all {p : Char → Bool} {l : List Char}
    (h1 : l ≠ []) (h2 : l.all p = true) : ∃ c cs, l = c :: cs ∧ p c = true := by
  cases l with
  | nil => exact absurd rfl h1
  | cons c cs =>
    refine ⟨c, cs, rfl, ?_⟩
    simp only [List.all_cons, Bool.and_eq_true] at h2
    exact h2.1

theorem digit_ne_dash {c : Char} (h : isDigitChar c = true) : c ≠ '-' := by
  intro hc
  rw [hc] at h
  exact absurd h (by decide)

theorem parseInt_cons (c : Char) (cs : List Char) :
    parseInt (c :: cs) =
      if c = '-' then
        match parseNatDigits cs with
        | some k => some (-(k : Int))
        | none => none
      else
        match parseNatDigits (c :: cs) with
        | some k => some ((k : Int))
        | none => none := rfl

theorem parseInt_renderInt (n : Int) : parseInt (renderInt n) = some n := by
  by_cases hneg : n < 0
  · have h1 : renderInt n = '-' :: renderNat n.natAbs := by simp [renderInt, hneg]
    rw [h1, parseInt_cons, if_pos rfl, parseNatDigits_renderNat]
    have h2 : (match some n.natAbs with
        | some k => some (-(k : Int))
        | none => none) = some (-(n.natAbs : Int)) := rfl
    rw [h2]
    have h3 : -((n.natAbs : Nat) : Int) = n := by omega
    rw [h3]
  · have h1 : renderInt n = renderNat n.natAbs := by simp [renderInt, hneg]
    obtain ⟨c, cs, hc, hdig⟩ :=
      exists_cons_of_ne_nil_all (renderNat_ne_nil n.natAbs) (renderNat_all_digits n.natAbs)
    rw [h1, hc, parseInt_cons, if_neg (digit_ne_dash hdig), ← hc, parseNatDigits_renderNat]
    have h2 : (match some n.natAbs with
        | some k => some ((k : Int))
        | none => none) = some ((n.natAbs : Int)) := rfl
    rw [h2]
    have h3 : ((n.natAbs : Nat) : Int) = n := by omega
    rw [h3]

theorem takeWhile_all {p : Char → Bool} :
    ∀ l : List Char, l.all p = true → l.takeWhile p = l := by
  intro l
  induction l with
  | nil => intro _; rfl
  | cons c cs ih =>
    intro h
    simp only [List.all_cons, Bool.and_eq_true] at h
    simp [List.takeWhile_cons, h.1, ih h.2]

theorem takeWhile_append_sep {p : Char → Bool} {c : Char} (hc : p c = false) :
    ∀ (l r : List Char), l.all p = true → (l ++ c :: r).takeWhile p = l := by
  intro l r
  induction l with
  | nil => intro _; simp [List.takeWhile_cons, hc]
  | cons a as ih =>
    intro h
    simp only [List.all_cons, Bool.and_eq_true] at h
    simp [List.takeWhile_cons, h.1, ih h.2]

theorem digitsVal_foldl_shift :
    ∀ (b : List Char) (x : Nat),
      b.foldl (fun a c => 10 * a + charToDigit c) x = x * 10 ^ b.length + digitsVal b := by
  intro b
  induction b with
  | nil => intro x; simp [digitsVal]
  | cons c cs ih =>
    intro x
    have h1 : digitsVal (c :: cs) = charToDigit c * 10 ^ cs.length + digitsVal cs := by
      show List.foldl (fun a c => 10 * a + charToDigit c) 0 (c :: cs) = _
      rw [List.foldl_cons, ih (10 * 0 + charToDigit c)]
      ring
    rw [List.foldl_cons, ih (10 * x + charToDigit c), h1, List.length_cons]
    ring

theorem digitsVal_append (a b : List Char) :
    digitsVal (a ++ b) = digitsVal a * 10 ^ b.length + digitsVal b := by
  simp only [digitsVal, List.foldl_append]
  exact digitsVal_foldl_shift b _

theorem digitsVal_replicate_zero (j : Nat) : digitsVal (List.replicate j '0') = 0 := by
  induction j with
  | zero => rfl
  | succ k ih =>
    simp only [List.replicate_succ, digitsVal, List.foldl_cons]
    have : (10 * 0 + charToDigit '0') = 0 := by decide
    rw [this]
    exact ih

theorem digitsVal_padLeft (k : Nat) (l : List Char) : digitsVal (padLeft k l) = digitsVal l := by
  simp only [padLeft]
  rw [digitsVal_append, digitsVal_replicate_zero]
  ring

theorem padLeft_all_digits {l : List Char} (h : l.all isDigitChar = true) (k : Nat) :
    (padLeft k l).all isDigitChar = true := by
  simp only [padLeft, List.all_append, Bool.and_eq_true]
  refine ⟨?_, h⟩
  simp only [List.all_eq_true]
  intro c hc
  rw [List.eq_of_mem_replicate hc]
  decide

theorem padLeft_length (k : Nat) (l : List Char) : (padLeft k l).length = max k l.length := by
  simp only [padLeft, List.length_append, List.length_replicate]
  omega

theorem all_of_sublist {p : Char → Bool} {l s : List Char}
    (hs : ∀ c ∈ s, c ∈ l) (h : l.all p = true) : s.all p = true := by
  simp only [List.all_eq_true] at h ⊢
  exact fun c hc => h c (hs c hc)

theorem parseFltMag_all_digits {l : List Char} (hne : l ≠ [])
    (hall : l.all isDigitChar = true) : parseFltMag l = some (digitsVal l, 0) := by
  have hemp : l.isEmpty = false := by
    cases l with
    | nil => exact absurd rfl hne
    | cons a as => rfl
  simp [parseFltMag, takeWhile_all l hall, List.drop_length, hemp]

theorem renderFltMag_zero (a : Nat) : renderFltMag a 0 = padLeft 1 (renderNat a) := by
  simp [renderFltMag]

theorem renderFltMag_pos (a : Nat) {e : Nat} (he : e ≠ 0) :
    renderFltMag a e =
      (padLeft (e + 1) (renderNat a)).take ((padLeft (e + 1) (renderNat a)).length - e) ++
      '.' :: (padLeft (e + 1) (renderNat a)).drop ((padLeft (e + 1) (renderNat a)).length - e) := by
  simp [renderFltMag, he]

theorem padLeft_ne_nil {k : Nat} (hk : k ≠ 0) (l : List Char) : padLeft k l ≠ [] := by
  intro h
  have := congrArg List.length h
  rw [padLeft_length] at this
  simp at this
  omega

theorem parseFltMag_renderFltMag (a e : Nat) : parseFltMag (renderFltMag a e) = some (a, e) := by
  have hall : (padLeft (e + 1) (renderNat a)).all isDigitChar = true :=
    padLeft_all_digits (renderNat_all_digits a) _
  have hlen : e + 1 ≤ (padLeft (e + 1) (renderNat a)).length := by
    rw [padLeft_length]; omega
  have hval : digitsVal (padLeft (e + 1) (renderNat a)) = a := by
    rw [digitsVal_padLeft, digitsVal_renderNat]
  by_cases he : e = 0
  · subst he
    rw [renderFltMag_zero,
      parseFltMag_all_digits (padLeft_ne_nil (by omega) (renderNat a)) hall, hval]
  · have hcore := renderFltMag_pos a he
    set mag := padLeft (e + 1) (renderNat a) with hmag
    set ip0 := mag.take (mag.length - e) with hip
    set fp0 := mag.drop (mag.length - e) with hfp
    have hip_all : ip0.all isDigitChar = true :=
      all_of_sublist (fun c hc => List.take_subset _ _ hc) hall
    have hfp_all : fp0.all isDigitChar = true :=
      all_of_sublist (fun c hc => List.drop_subset _ _ hc) hall
    have hip_len : ip0.length = mag.length - e := by
      rw [hip, List.length_take]; omega
    have hfp_len : fp0.length = e := by
      rw [hfp, List.length_drop]; omega
    have hip_emp : ip0.isEmpty = false := by
      cases h : ip0 with
      | nil =>
        have := congrArg List.length h
        rw [hip_len] at this
        simp at this
        omega
      | cons c cs => rfl
    have hfp_emp : fp0.isEmpty = false := by
      cases h : fp0 with
      | nil =>
        have := congrArg List.length h
        rw [hfp_len] at this
        simp at this
        omega
      | cons c cs => rfl
    have htw : (ip0 ++ '.' :: fp0).takeWhile isDigitChar = ip0 :=
      takeWhile_append_sep (by decide) ip0 fp0 hip_all
    have hdrop : (ip0 ++ '.' :: fp0).drop ip0.length = '.' :: fp0 := List.drop_left ip0 _
    have hsum : digitsVal ip0 * 10 ^ fp0.length + digitsVal fp0 = a := by
      rw [← digitsVal_append, hip, hfp, List.take_append_drop, hval]
    rw [hcore]
    rw [hfp_len] at hsum
    have hdrop2 : List.drop e fp0 = [] := by
      rw [← hfp_len]
      exact List.drop_length fp0
    simp only [parseFltMag, htw, hip_emp, hdrop, Bool.false_eq_true, if_false,
      takeWhile_all fp0 hfp_all, hfp_emp, hfp_len, hdrop2, hsum]
    simp

theorem renderFltMag_head (a e : Nat) :
    ∃ c cs, renderFltMag a e = c :: cs ∧ isDigitChar c = true := by
  by_cases he : e = 0
  · subst he
    rw [renderFltMag_zero]
    exact exists_cons_of_ne_nil_all (padLeft_ne_nil (by omega) _)
      (padLeft_all_digits (renderNat_all_digits a) _)
  · rw [renderFltMag_pos a he]
    set mag := padLeft (e + 1) (renderNat a) with hmag
    have hall : mag.all isDigitChar = true :=
      padLeft_all_digits (renderNat_all_digits a) _
    have hlen : e + 1 ≤ mag.length := by rw [hmag, padLeft_length]; omega
    have hip_all : (mag.take (mag.length - e)).all isDigitChar = true :=
      all_of_sublist (fun c hc => List.take_subset _ _ hc) hall
    have hip_ne : mag.take (mag.length - e) ≠ [] := by
      intro h
      have := congrArg List.length h
      rw [List.length_take] at this
      simp at this
      omega
    obtain ⟨c, cs, hc, hdig⟩ := exists_cons_of_ne_nil_all hip_ne hip_all
    exact ⟨c, cs ++ '.' :: mag.drop (mag.length - e), by rw [hc]; rfl, hdig⟩

theorem parseFlt_cons (c : Char) (cs : List Char) :
    parseFlt (c :: cs) =
      if c = '-' then
        match parseFltMag cs with
        | some p => some (-(p.1 : Int), p.2)
        | none => none
      else
        match parseFltMag (c :: cs) with
        | some p => some ((p.1 : Int), p.2)
        | none => none := rfl

theorem parseFlt_renderFlt (m : Int) (e : Nat) : parseFlt (renderFlt m e) = some (m, e) := by
  by_cases hneg : m < 0
  · have h1 : renderFlt m e = '-' :: renderFltMag m.natAbs e := by simp [renderFlt, hneg]
    rw [h1, parseFlt_cons, if_pos rfl, parseFltMag_renderFltMag]
    have h2 : (match some (m.natAbs, e) with
        | some p => some (-(p.1 : Int), p.2)
        | none => none) = some (-((m.natAbs : Nat) : Int), e) := rfl
    rw [h2]
    have h3 : -((m.natAbs : Nat) : Int) = m := by omega
    rw [h3]
  · have h1 : renderFlt m e = renderFltMag m.natAbs e := by simp [renderFlt, hneg]
    obtain ⟨c, cs, hc, hdig⟩ := renderFltMag_head m.natAbs e
    rw [h1, hc, parseFlt_cons, if_neg (digit_ne_dash hdig), ← hc, parseFltMag_renderFltMag]
    have h2 : (match some (m.natAbs, e) with
        | some p => some ((p.1 : Int), p.2)
        | none => none) = some (((m.natAbs : Nat) : Int), e) := rfl
    rw [h2]
    have h3 : ((m.natAbs : Nat) : Int) = m := by omega
    rw [h3]

theorem dot_mem_renderFltMag (a : Nat) {e : Nat} (he : e ≠ 0) : '.' ∈ renderFltMag a e := by
  rw [renderFltMag_pos a he]
  simp

theorem parseNatDigits_of_nondigit_mem {l : List Char} {c : Char} (hc : c ∈ l)
    (h : isDigitChar c = false) : parseNatDigits l = none := by
  have hall : ¬ (l.all isDigitChar = true) := by
    intro hall
    have hx := List.all_eq_true.mp hall c hc
    rw [h] at hx
    exact Bool.false_ne_true hx
  simp only [parseNatDigits]
  by_cases hemp : l.isEmpty = true
  · rw [if_pos hemp]
  · rw [if_neg hemp, if_neg hall]

theorem parseInt_renderFlt_frac (m : Int) {e : Nat} (he : e ≠ 0) :
    parseInt (renderFlt m e) = none := by
  have hnd : parseNatDigits (renderFltMag m.natAbs e) = none :=
    parseNatDigits_of_nondigit_mem (dot_mem_renderFltMag m.natAbs he) (by decide)
  by_cases hneg : m < 0
  · have h1 : renderFlt m e = '-' :: renderFltMag m.natAbs e := by simp [renderFlt, hneg]
    rw [h1, parseInt_cons, if_pos rfl, hnd]
  · have h1 : renderFlt m e = renderFltMag m.natAbs e := by simp [renderFlt, hneg]
    obtain ⟨c, cs, hc, hdig⟩ := renderFltMag_head m.natAbs e
    rw [h1, hc, parseInt_cons, if_neg (digit_ne_dash hdig), ← hc, hnd]

theorem fltIsIntegral_zero (m : Int) : fltIsIntegral m 0 = true := by
  simp [fltIsIntegral]

theorem fltIsIntegral_false_pos {m : Int} {e : Nat} (h : fltIsIntegral m e = false) : e ≠ 0 := by
  intro he
  rw [he, fltIsIntegral_zero m] at h
  exact Bool.noConfusion h

/-! Lemmas about documents as ordered key-value lists. -/

theorem lookupDoc_cons (k : String) (w : JsonVal) (rest : Doc) (n : String) :
    lookupDoc ((k, w) :: rest) n = if k = n then some w else lookupDoc rest n := rfl

theorem setDoc_cons (k : String) (w : JsonVal) (rest : Doc) (n : String) (v : JsonVal) :
    setDoc ((k, w) :: rest) n v = if k = n then (n, v) :: rest else (k, w) :: setDoc rest n v := rfl

theorem eraseDoc_cons (k : String) (w : JsonVal) (rest : Doc) (n : String) :
    eraseDoc ((k, w) :: rest) n = if k = n then rest else (k, w) :: eraseDoc rest n := rfl

theorem setDoc_self :
    ∀ (d : Doc) (n : String) (v : JsonVal), lookupDoc d n = some v → setDoc d n v = d := by
  intro d n v
  induction d with
  | nil => intro h; exact Option.noConfusion h
  | cons p rest ih =>
    intro h
    obtain ⟨k, w⟩ := p
    rw [lookupDoc_cons] at h
    rw [setDoc_cons]
    by_cases hk : k = n
    · rw [if_pos hk] at h
      rw [if_pos hk]
      injection h with h2
      rw [← hk, ← h2]
    · rw [if_neg hk] at h
      rw [if_neg hk, ih h]

theorem lookup_setDoc_self :
    ∀ (d : Doc) (n : String) (v0 v : JsonVal),
      lookupDoc d n = some v0 → lookupDoc (setDoc d n v) n = some v := by
  intro d n v0 v
  induction d with
  | nil => intro h; exact Option.noConfusion h
  | cons p rest ih =>
    intro h
    obtain ⟨k, w⟩ := p
    rw [lookupDoc_cons] at h
    rw [setDoc_cons]
    by_cases hk : k = n
    · rw [if_pos hk, lookupDoc_cons, if_pos rfl]
    · rw [if_neg hk] at h
      rw [if_neg hk, lookupDoc_cons, if_neg hk, ih h]

theorem lookup_setDoc_none :
    ∀ (d : Doc) (n m : String) (v : JsonVal),
      lookupDoc d n = none → lookupDoc (setDoc d m v) n = none := by
  intro d n m v
  induction d with
  | nil => intro _; rfl
  | cons p rest ih =>
    intro h
    obtain ⟨k, w⟩ := p
    rw [lookupDoc_cons] at h
    by_cases hk : k = n
    · rw [if_pos hk] at h; exact Option.noConfusion h
    · rw [if_neg hk] at h
      rw [setDoc_cons]
      by_cases hm : k = m
      · rw [if_pos hm, lookupDoc_cons, if_neg (by rw [← hm]; exact hk)]
        exact h
      · rw [if_neg hm, lookupDoc_cons, if_neg hk]
        exact ih h

theorem lookup_eraseDoc_none :
    ∀ (d : Doc) (n m : String),
      lookupDoc d n = none → lookupDoc (eraseDoc d m) n = none := by
  intro d n m
  induction d with
  | nil => intro _; rfl
  | cons p rest ih =>
    intro h
    obtain ⟨k, w⟩ := p
    rw [lookupDoc_cons] at h
    by_cases hk : k = n
    · rw [if_pos hk] at h; exact Option.noConfusion h
    · rw [if_neg hk] at h
      rw [eraseDoc_cons]
      by_cases hm : k = m
      · rw [if_pos hm]; exact h
      · rw [if_neg hm, lookupDoc_cons, if_neg hk]
        exact ih h

theorem lookupDoc_eq_none_of_not_any :
    ∀ (d : Doc) (n : String),
      d.any (fun p => decide (p.1 = n)) = false → lookupDoc d n = none := by
  intro d n
  induction d with
  | nil => intro _; rfl
  | cons p rest ih =>
    intro h
    obtain ⟨k, w⟩ := p
    simp only [List.any_cons, Bool.or_eq_false_iff, decide_eq_false_iff_not] at h
    rw [lookupDoc_cons, if_neg h.1]
    exact ih h.2

theorem nodupKeys_cons {k : String} {w : JsonVal} {rest : Doc}
    (h : nodupKeys ((k, w) :: rest) = true) :
    rest.any (fun p => decide (p.1 = k)) = false ∧ nodupKeys rest = true := by
  simp only [nodupKeys, Bool.and_eq_true, Bool.not_eq_true'] at h
  exact h

theorem lookup_eraseDoc_self :
    ∀ (d : Doc) (n : String), nodupKeys d = true → lookupDoc (eraseDoc d n) n = none := by
  intro d n
  induction d with
  | nil => intro _; rfl
  | cons p rest ih =>
    intro h
    obtain ⟨k, w⟩ := p
    obtain ⟨h1, h2⟩ := nodupKeys_cons h
    rw [eraseDoc_cons]
    by_cases hk : k = n
    · rw [if_pos hk]
      rw [hk] at h1
      exact lookupDoc_eq_none_of_not_any rest n h1
    · rw [if_neg hk, lookupDoc_cons, if_neg hk]
      exact ih h2

theorem any_key_setDoc :
    ∀ (d : Doc) (n : String) (v : JsonVal) (m : String),
      (setDoc d n v).any (fun p => decide (p.1 = m)) = d.any (fun p => decide (p.1 = m)) := by
  intro d n v m
  induction d with
  | nil => rfl
  | cons p rest ih =>
    obtain ⟨k, w⟩ := p
    rw [setDoc_cons]
    by_cases hk : k = n
    · rw [if_pos hk]
      simp only [List.any_cons, hk]
    · rw [if_neg hk]
      simp only [List.any_cons, ih]

theorem any_key_eraseDoc_le :
    ∀ (d : Doc) (n m : String),
      (eraseDoc d n).any (fun p => decide (p.1 = m)) = true →
      d.any (fun p => decide (p.1 = m)) = true := by
  intro d n m
  induction d with
  | nil => intro h; exact Bool.noConfusion h
  | cons p rest ih =>
    intro h
    obtain ⟨k, w⟩ := p
    rw [eraseDoc_cons] at h
    simp only [List.any_cons, Bool.or_eq_true]
    by_cases hk : k = n
    · rw [if_pos hk] at h
      exact Or.inr h
    · rw [if_neg hk] at h
      simp only [List.any_cons, Bool.or_eq_true] at h
      rcases h with h | h
      · exact Or.inl h
      · exact Or.inr (ih h)

theorem nodupKeys_setDoc :
    ∀ (d : Doc) (n : String) (v : JsonVal),
      nodupKeys d = true → nodupKeys (setDoc d n v) = true := by
  intro d n v
  induction d with
  | nil => intro _; rfl
  | cons p rest ih =>
    intro h
    obtain ⟨k, w⟩ := p
    obtain ⟨h1, h2⟩ := nodupKeys_cons h
    rw [setDoc_cons]
    by_cases hk : k = n
    · rw [if_pos hk]
      simp only [nodupKeys, Bool.and_eq_true, Bool.not_eq_true']
      rw [← hk]
      exact ⟨h1, h2⟩
    · rw [if_neg hk]
      simp only [nodupKeys, Bool.and_eq_true, Bool.not_eq_true']
      rw [any_key_setDoc]
      exact ⟨h1, ih h2⟩

theorem nodupKeys_eraseDoc :
    ∀ (d : Doc) (n : String),
      nodupKeys d = true → nodupKeys (eraseDoc d n) = true := by
  intro d n
  induction d with
  | nil => intro _; rfl
  | cons p rest ih =>
    intro h
    obtain ⟨k, w⟩ := p
    obtain ⟨h1, h2⟩ := nodupKeys_cons h
    rw [eraseDoc_cons]
    by_cases hk : k = n
    · rw [if_pos hk]; exact h2
    · rw [if_neg hk]
      simp only [nodupKeys, Bool.and_eq_true, Bool.not_eq_true']
      refine ⟨?_, ih h2⟩
      cases ha : (eraseDoc rest n).any (fun p => decide (p.1 = k)) with
      | false => rfl
      | true => rw [any_key_eraseDoc_le rest n k ha] at h1; exact Bool.noConfusion h1

/-! Lemmas about the type coercers. -/

theorem coerce_scalar_matched {ftype : field_type} {v : JsonVal}
    (h : scalarMatches ftype v = true) (dv : DIRTY_VALUES) (fb : String) (f : field)
    (ia : Bool) : coerce_scalar ftype dv fb f v ia = ⟨.ok 200, some v, false⟩ := by
  cases ftype with
  | T_STRING => simp only [scalarMatches] at h; simp [coerce_scalar, coerce_string, h]
  | T_INT32 => simp only [scalarMatches] at h; simp [coerce_scalar, coerce_int32_t, h]
  | T_INT64 => simp only [scalarMatches] at h; simp [coerce_scalar, coerce_int64_t, h]
  | T_FLOAT => simp only [scalarMatches] at h; simp [coerce_scalar, coerce_float, h]
  | T_BOOL => simp only [scalarMatches] at h; simp [coerce_scalar, coerce_bool, h]
  | T_GEOPOINT => simp only [scalarMatches] at h; simp [coerce_scalar, coerce_geopoint, h]
  | T_AUTO => rfl

theorem convToString_matches {v w : JsonVal} (h : convToString v = some w) : w.isStr = true := by
  cases v <;> simp [convToString] at h <;> rw [← h] <;> rfl

theorem convToIntRange_matches {lo hi : Int} {v w : JsonVal}
    (h : convToIntRange lo hi v = some w) : w.isInt = true := by
  cases v with
  | str s =>
    simp only [convToIntRange] at h
    cases hp : parseInt s.data with
    | none => rw [hp] at h; exact Option.noConfusion h
    | some n =>
      rw [hp] at h
      have h2 : (if (decide (lo ≤ n) && decide (n ≤ hi)) = true
          then some (JsonVal.int n) else none) = some w := h
      by_cases hc : (decide (lo ≤ n) && decide (n ≤ hi)) = true
      · rw [if_pos hc] at h2; injection h2 with h2; rw [← h2]; rfl
      · rw [if_neg hc] at h2; exact Option.noConfusion h2
  | flt m e =>
    have h2 : (if (fltIsIntegral m e &&
        (decide (lo ≤ fltToInt m e) && decide (fltToInt m e ≤ hi))) = true
        then some (JsonVal.int (fltToInt m e)) else none) = some w := h
    by_cases hc : (fltIsIntegral m e &&
        (decide (lo ≤ fltToInt m e) && decide (fltToInt m e ≤ hi))) = true
    · rw [if_pos hc] at h2; injection h2 with h2; rw [← h2]; rfl
    · rw [if_neg hc] at h2; exact Option.noConfusion h2
  | null => exact Option.noConfusion h
  | bool b => exact Option.noConfusion h
  | int n => exact Option.noConfusion h
  | arr xs => exact Option.noConfusion h
  | obj kvs => exact Option.noConfusion h

theorem convToFloat_matches {v w : JsonVal} (h : convToFloat v = some w) : w.isFlt = true := by
  cases v with
  | int n =>
    simp only [convToFloat, Option.some.injEq] at h
    rw [← h]; rfl
  | str s =>
    simp only [convToFloat] at h
    cases hp : parseFlt s.data with
    | none => rw [hp] at h; exact Option.noConfusion h
    | some p =>
      rw [hp] at h
      have h2 : some (JsonVal.flt p.1 p.2) = some w := h
      injection h2 with h2; rw [← h2]; rfl
  | null => exact Option.noConfusion h
  | bool b => exact Option.noConfusion h
  | flt m e => exact Option.noConfusion h
  | arr xs => exact Option.noConfusion h
  | obj kvs => exact Option.noConfusion h

theorem convToBool_matches {v w : JsonVal} (h : convToBool v = some w) : w.isBool = true := by
  cases v with
  | str s =>
    simp only [convToBool] at h
    by_cases h1 : s = "true"
    · rw [if_pos h1] at h; injection h with h; rw [← h]; rfl
    · rw [if_neg h1] at h
      by_cases h2 : s = "false"
      · rw [if_pos h2] at h; injection h with h; rw [← h]; rfl
      · rw [if_neg h2] at h; exact Option.noConfusion h
  | null => exact Option.noConfusion h
  | bool b => exact Option.noConfusion h
  | int n => exact Option.noConfusion h
  | flt m e => exact Option.noConfusion h
  | arr xs => exact Option.noConfusion h
  | obj kvs => exact Option.noConfusion h

theorem geoEntryToFlt_isFlt {a x : JsonVal} (h : geoEntryToFlt a = some x) : x.isFlt = true := by
  cases a <;> simp [geoEntryToFlt] at h <;> rw [← h] <;> rfl

theorem convGeo_matches {v w : JsonVal} (h : convGeo v = some w) : geoMatches w = true := by
  cases v with
  | arr xs =>
    match xs with
    | [] => exact Option.noConfusion h
    | [a] => exact Option.noConfusion h
    | a :: b :: c :: rest => exact Option.noConfusion h
    | [a, b] =>
      simp only [convGeo] at h
      cases ha : geoEntryToFlt a with
      | none => rw [ha] at h; exact Option.noConfusion h
      | some x =>
        cases hb : geoEntryToFlt b with
        | none => rw [ha, hb] at h; exact Option.noConfusion h
        | some y =>
          rw [ha, hb] at h
          injection h with h
          rw [← h]
          simp only [geoMatches, Bool.and_eq_true]
          exact ⟨geoEntryToFlt_isFlt ha, geoEntryToFlt_isFlt hb⟩
  | null => exact Option.noConfusion h
  | bool b => exact Option.noConfusion h
  | int n => exact Option.noConfusion h
  | flt m e => exact Option.noConfusion h
  | str s => exact Option.noConfusion h
  | obj kvs => exact Option.noConfusion h

/-- The conversion attempted for a declared scalar type. -/
def convFor (ftype : field_type) : JsonVal → Option JsonVal :=
  match ftype with
  | .T_STRING => convToString
  | .T_INT32 => convToInt32
  | .T_INT64 => convToInt64
  | .T_FLOAT => convToFloat
  | .T_BOOL => convToBool
  | .T_GEOPOINT => convGeo
  | .T_AUTO => fun _ => none

theorem convFor_matches {ftype : field_type} (hft : ftype ≠ .T_AUTO) {v w : JsonVal}
    (h : convFor ftype v = some w) : scalarMatches ftype w = true := by
  cases ftype with
  | T_STRING => exact convToString_matches h
  | T_INT32 => exact convToIntRange_matches h
  | T_INT64 => exact convToIntRange_matches h
  | T_FLOAT => exact convToFloat_matches h
  | T_BOOL => exact convToBool_matches h
  | T_GEOPOINT => exact convGeo_matches h
  | T_AUTO => exact absurd rfl hft

theorem handleMismatch_reject {v : JsonVal} {ia : Bool} {conv : Option JsonVal} {msg : String} :
    handleMismatch .REJECT v ia conv msg = ⟨.err 400 msg, some v, false⟩ := rfl

theorem coerce_scalar_mismatch_reject {ftype : field_type} (hft : ftype ≠ .T_AUTO)
    {v : JsonVal} (h : scalarMatches ftype v = false) (fb : String) (f : field) (ia : Bool) :
    (coerce_scalar ftype .REJECT fb f v ia).outcome.isErr = true ∧
    (coerce_scalar ftype .REJECT fb f v ia).value = some v := by
  cases ftype with
  | T_STRING =>
    simp only [scalarMatches] at h
    simp [coerce_scalar, coerce_string, h, handleMismatch_reject, Outcome.isErr]
  | T_INT32 =>
    simp only [scalarMatches] at h
    simp [coerce_scalar, coerce_int32_t, h, handleMismatch_reject, Outcome.isErr]
  | T_INT64 =>
    simp only [scalarMatches] at h
    simp [coerce_scalar, coerce_int64_t, h, handleMismatch_reject, Outcome.isErr]
  | T_FLOAT =>
    simp only [scalarMatches] at h
    simp [coerce_scalar, coerce_float, h, handleMismatch_reject, Outcome.isErr]
  | T_BOOL =>
    simp only [scalarMatches] at h
    simp [coerce_scalar, coerce_bool, h, handleMismatch_reject, Outcome.isErr]
  | T_GEOPOINT =>
    simp only [scalarMatches] at h
    by_cases hs : geoShapeOk v = true
    · simp [coerce_scalar, coerce_geopoint, h, hs, handleMismatch_reject, Outcome.isErr]
    · simp [coerce_scalar, coerce_geopoint, h, hs, Outcome.isErr]
  | T_AUTO => exact absurd rfl hft

theorem handleMismatch_ok_value {dv : DIRTY_VALUES} {v : JsonVal} {ia : Bool}
    {conv : Option JsonVal} {msg : String} {c : Nat} {val : Option JsonVal} {fl : Bool}
    (h : handleMismatch dv v ia conv msg = ⟨.ok c, val, fl⟩) :
    val = none ∨ ∃ w, val = some w ∧ conv = some w := by
  cases dv with
  | REJECT => exact Outcome.noConfusion (congrArg CoerceOut.outcome h)
  | DROP => exact Or.inl (congrArg CoerceOut.value h).symm
  | COERCE_OR_REJECT =>
    cases hc : conv with
    | some w =>
      rw [hc] at h
      exact Or.inr ⟨w, (congrArg CoerceOut.value h).symm, rfl⟩
    | none =>
      rw [hc] at h
      exact Outcome.noConfusion (congrArg CoerceOut.outcome h)
  | COERCE_OR_DROP =>
    cases hc : conv with
    | some w =>
      rw [hc] at h
      exact Or.inr ⟨w, (congrArg CoerceOut.value h).symm, rfl⟩
    | none =>
      rw [hc] at h
      exact Or.inl (congrArg CoerceOut.value h).symm

theorem coerce_scalar_mismatch_handle {ftype : field_type} (hft : ftype ≠ .T_AUTO)
    {v : JsonVal} (hm : scalarMatches ftype v = false)
    (hs : ftype = .T_GEOPOINT → geoShapeOk v = true)
    (dv : DIRTY_VALUES) (fb : String) (f : field) (ia : Bool) :
    ∃ msg, coerce_scalar ftype dv fb f v ia =
      handleMismatch dv v ia (convFor ftype v) msg := by
  cases ftype with
  | T_STRING =>
    simp only [scalarMatches] at hm
    exact ⟨typeMismatchMsg f.name "string", by simp [coerce_scalar, coerce_string, hm, convFor]⟩
  | T_INT32 =>
    simp only [scalarMatches] at hm
    exact ⟨typeMismatchMsg f.name "int32", by simp [coerce_scalar, coerce_int32_t, hm, convFor]⟩
  | T_INT64 =>
    simp only [scalarMatches] at hm
    exact ⟨typeMismatchMsg f.name "int64", by simp [coerce_scalar, coerce_int64_t, hm, convFor]⟩
  | T_FLOAT =>
    simp only [scalarMatches] at hm
    exact ⟨typeMismatchMsg f.name "float", by simp [coerce_scalar, coerce_float, hm, convFor]⟩
  | T_BOOL =>
    simp only [scalarMatches] at hm
    exact ⟨typeMismatchMsg f.name "bool", by simp [coerce_scalar, coerce_bool, hm, convFor]⟩
  | T_GEOPOINT =>
    simp only [scalarMatches] at hm
    exact ⟨typeMismatchMsg f.name "geopoint",
      by simp [coerce_scalar, coerce_geopoint, hm, hs rfl, convFor]⟩
  | T_AUTO => exact absurd rfl hft

theorem coerce_scalar_ok_value {ftype : field_type} (hft : ftype ≠ .T_AUTO)
    {dv : DIRTY_VALUES} {fb : String} {f : field} {v : JsonVal} {ia : Bool}
    {c : Nat} {val : Option JsonVal} {fl : Bool}
    (h : coerce_scalar ftype dv fb f v ia = ⟨.ok c, val, fl⟩) :
    val = none ∨ ∃ w, val = some w ∧ scalarMatches ftype w = true := by
  by_cases hm : scalarMatches ftype v = true
  · rw [coerce_scalar_matched hm] at h
    exact Or.inr ⟨v, (congrArg CoerceOut.value h).symm, hm⟩
  · have hm' : scalarMatches ftype v = false := by
      cases hsc : scalarMatches ftype v with
      | true => exact absurd hsc hm
      | false => rfl
    by_cases hg : ftype = .T_GEOPOINT
    · by_cases hgs : geoShapeOk v = true
      · obtain ⟨msg, heq⟩ := coerce_scalar_mismatch_handle hft hm' (fun _ => hgs) dv fb f ia
        rw [heq] at h
        rcases handleMismatch_ok_value h with h1 | ⟨w, hw, hc⟩
        · exact Or.inl h1
        · exact Or.inr ⟨w, hw, convFor_matches hft hc⟩
      · subst hg
        simp only [scalarMatches] at hm'
        simp only [coerce_scalar, coerce_geopoint, hm', Bool.false_eq_true, if_false] at h
        rw [if_neg hgs] at h
        exact Outcome.noConfusion (congrArg CoerceOut.outcome h)
    · obtain ⟨msg, heq⟩ := coerce_scalar_mismatch_handle hft hm' (fun hh => absurd hh hg) dv fb f ia
      rw [heq] at h
      rcases handleMismatch_ok_value h with h1 | ⟨w, hw, hc⟩
      · exact Or.inl h1
      · exact Or.inr ⟨w, hw, convFor_matches hft hc⟩

theorem coerce_arr_elems_matched (ftype : field_type) (dv : DIRTY_VALUES) (fb : String)
    (f : field) : ∀ xs : List JsonVal, (∀ x ∈ xs, scalarMatches ftype x = true) →
      coerce_arr_elems ftype dv fb f xs = (.ok 200, xs, false) := by
  intro xs
  induction xs with
  | nil => intro _; rfl
  | cons x xs ih =>
    intro h
    have hx := h x (List.mem_cons_self x xs)
    have hxs : ∀ y ∈ xs, scalarMatches ftype y = true :=
      fun y hy => h y (List.mem_cons_of_mem x hy)
    simp only [coerce_arr_elems, coerce_scalar_matched hx, ih hxs]

theorem coerce_arr_elems_ok_all {ftype : field_type} (hft : ftype ≠ .T_AUTO)
    (dv : DIRTY_VALUES) (fb : String) (f : field) :
    ∀ (xs ys : List JsonVal) (c : Nat) (er : Bool),
      coerce_arr_elems ftype dv fb f xs = (.ok c, ys, er) →
      ∀ y ∈ ys, scalarMatches ftype y = true := by
  intro xs
  induction xs with
  | nil =>
    intro ys c er h y hy
    injection h with h1 h2
    injection h2 with h3 h4
    rw [← h3] at hy
    exact absurd hy (List.not_mem_nil y)
  | cons x xs ih =>
    intro ys c er h y hy
    rcases hr : coerce_scalar ftype dv fb f x true with ⟨o, val, fl⟩
    cases o with
    | err c1 m1 =>
      simp only [coerce_arr_elems, hr] at h
      exact Outcome.noConfusion (congrArg Prod.fst h)
    | ok c1 =>
      rcases hrest : coerce_arr_elems ftype dv fb f xs with ⟨o2, zs, er2⟩
      cases o2 with
      | err c2 m2 =>
        simp only [coerce_arr_elems, hr, hrest] at h
        exact Outcome.noConfusion (congrArg Prod.fst h)
      | ok c2 =>
        cases val with
        | some w =>
          simp only [coerce_arr_elems, hr, hrest] at h
          injection h with h1 h2
          injection h2 with h3 h4
          rw [← h3] at hy
          rcases List.mem_cons.mp hy with rfl | hy2
          · rcases coerce_scalar_ok_value hft hr with h5 | ⟨w2, hw2, hmt⟩
            · exact Option.noConfusion h5
            · injection hw2 with hw2
              rw [hw2]
              exact hmt
          · exact ih zs c2 er2 hrest y hy2
        | none =>
          simp only [coerce_arr_elems, hr, hrest] at h
          injection h with h1 h2
          injection h2 with h3 h4
          rw [← h3] at hy
          exact ih zs c2 er2 hrest y hy

theorem coerce_arr_elems_reject_err {ftype : field_type} (hft : ftype ≠ .T_AUTO)
    (fb : String) (f : field) :
    ∀ xs : List JsonVal, (∃ x ∈ xs, scalarMatches ftype x = false) →
      (coerce_arr_elems ftype .REJECT fb f xs).1.isErr = true := by
  intro xs
  induction xs with
  | nil =>
    rintro ⟨x, hx, _⟩
    exact absurd hx (List.not_mem_nil x)
  | cons x xs ih =>
    rintro ⟨z, hz, hzm⟩
    by_cases hxm : scalarMatches ftype x = true
    · rcases List.mem_cons.mp hz with rfl | hz2
      · rw [hxm] at hzm
        exact Bool.noConfusion hzm
      · have htail := ih ⟨z, hz2, hzm⟩
        rcases hrest : coerce_arr_elems ftype .REJECT fb f xs with ⟨o2, zs, er2⟩
        rw [hrest] at htail
        simp only [coerce_arr_elems, coerce_scalar_matched hxm, hrest]
        cases o2 with
        | err c2 m2 => rfl
        | ok c2 => exact Bool.noConfusion htail
    · have hxm' : scalarMatches ftype x = false := by
        cases hsc : scalarMatches ftype x with
        | true => exact absurd hsc hxm
        | false => rfl
      obtain ⟨h1, h2⟩ := coerce_scalar_mismatch_reject hft hxm' fb f true
      rcases hr : coerce_scalar ftype .REJECT fb f x true with ⟨o, val, fl⟩
      rw [hr] at h1
      simp only [coerce_arr_elems, hr]
      cases o with
      | err c1 m1 => rfl
      | ok c1 => exact Bool.noConfusion h1

/-! Lemmas about the element coercer. -/

theorem scalarMatches_null_false (ftype : field_type) :
    scalarMatches ftype JsonVal.null = false := by
  cases ftype <;> rfl

theorem typeMatches_array_eq {f : field} (hauto : ¬ f.ftype = field_type.T_AUTO)
    (harr : f.is_array = true) (xs : List JsonVal) :
    typeMatches f (.arr xs) = xs.all (scalarMatches f.ftype) := by
  simp [typeMatches, hauto, harr]

theorem typeMatches_scalar_eq {f : field} (hauto : ¬ f.ftype = field_type.T_AUTO)
    (harr : ¬ f.is_array = true) (v : JsonVal) :
    typeMatches f v = scalarMatches f.ftype v := by
  simp [typeMatches, hauto, harr]

theorem typeMatches_not_null {f : field} {v : JsonVal} (h : typeMatches f v = true) :
    v.isNull = false := by
  cases v with
  | null =>
    exfalso
    by_cases hauto : f.ftype = field_type.T_AUTO
    · simp [typeMatches, hauto, JsonVal.isNull] at h
    · by_cases harr : f.is_array = true
      · simp [typeMatches, hauto, harr] at h
      · rw [typeMatches_scalar_eq hauto harr, scalarMatches_null_false] at h
        exact Bool.noConfusion h
  | bool b => rfl
  | int n => rfl
  | flt m e => rfl
  | str s => rfl
  | arr xs => rfl
  | obj kvs => rfl

theorem coerce_element_matched {f : field} {doc : Doc} {v : JsonVal}
    (hl : lookupDoc doc f.name = some v) (hm : typeMatches f v = true)
    (fb : String) (dv : DIRTY_VALUES) :
    coerce_element f doc fb dv = (.ok 200, doc) := by
  have hnull : v.isNull = false := typeMatches_not_null hm
  by_cases hauto : f.ftype = field_type.T_AUTO
  · simp [coerce_element, hl, hauto]
  · by_cases harr : f.is_array = true
    · cases v with
      | arr xs =>
        rw [typeMatches_array_eq hauto harr] at hm
        have hall : ∀ x ∈ xs, scalarMatches f.ftype x = true := List.all_eq_true.mp hm
        simp only [coerce_element, hl, if_neg hauto, hnull, Bool.false_eq_true, if_false,
          harr, if_true, coerce_arr_elems_matched f.ftype dv fb f xs hall,
          Bool.false_and, Bool.and_false]
        rw [setDoc_self doc f.name (.arr xs) hl]
      | null => simp [typeMatches, hauto, harr] at hm
      | bool b => simp [typeMatches, hauto, harr] at hm
      | int n => simp [typeMatches, hauto, harr] at hm
      | flt m e => simp [typeMatches, hauto, harr] at hm
      | str s => simp [typeMatches, hauto, harr] at hm
      | obj kvs => simp [typeMatches, hauto, harr] at hm
    · rw [typeMatches_scalar_eq hauto harr] at hm
      simp only [coerce_element, hl, if_neg hauto, hnull, Bool.false_eq_true, if_false,
        harr, coerce_scalar_matched hm dv fb f false]
      rw [setDoc_self doc f.name v hl]

theorem coerce_element_doc_shape (f : field) (doc : Doc) (fb : String) (dv : DIRTY_VALUES) :
    (coerce_element f doc fb dv).2 = doc ∨
    (∃ w, (coerce_element f doc fb dv).2 = setDoc doc f.name w) ∨
    (coerce_element f doc fb dv).2 = eraseDoc doc f.name := by
  cases hl : lookupDoc doc f.name with
  | none => exact Or.inl (by simp [coerce_element, hl])
  | some v =>
    by_cases hauto : f.ftype = field_type.T_AUTO
    · exact Or.inl (by simp [coerce_element, hl, hauto])
    · by_cases hnull : v.isNull = true
      · by_cases hopt : f.optional = true
        · exact Or.inl (by simp [coerce_element, hl, hauto, hnull, hopt])
        · exact Or.inl (by simp [coerce_element, hl, hauto, hnull, hopt])
      · by_cases harr : f.is_array = true
        · cases v with
          | arr xs =>
            rcases hres : coerce_arr_elems f.ftype dv fb f xs with ⟨o, ys, er⟩
            cases o with
            | err c m =>
              exact Or.inl (by simp [coerce_element, hl, hauto, hnull, harr, hres])
            | ok c =>
              by_cases hg : (er && ys.isEmpty && !f.optional) = true
              · exact Or.inl (by simp [coerce_element, hl, hauto, hnull, harr, hres, hg])
              · exact Or.inr (Or.inl ⟨.arr ys,
                  by simp [coerce_element, hl, hauto, hnull, harr, hres, hg]⟩)
          | null => exact absurd rfl hnull
          | bool b =>
            cases dv with
            | REJECT => exact Or.inl (by simp [coerce_element, hl, hauto, hnull, harr])
            | COERCE_OR_REJECT => exact Or.inl (by simp [coerce_element, hl, hauto, hnull, harr])
            | DROP => exact Or.inr (Or.inr (by simp [coerce_element, hl, hauto, hnull, harr]))
            | COERCE_OR_DROP =>
              exact Or.inr (Or.inr (by simp [coerce_element, hl, hauto, hnull, harr]))
          | int n =>
            cases dv with
            | REJECT => exact Or.inl (by simp [coerce_element, hl, hauto, hnull, harr])
            | COERCE_OR_REJECT => exact Or.inl (by simp [coerce_element, hl, hauto, hnull, harr])
            | DROP => exact Or.inr (Or.inr (by simp [coerce_element, hl, hauto, hnull, harr]))
            | COERCE_OR_DROP =>
              exact Or.inr (Or.inr (by simp [coerce_element, hl, hauto, hnull, harr]))
          | flt m e =>
            cases dv with
            | REJECT => exact Or.inl (by simp [coerce_element, hl, hauto, hnull, harr])
            | COERCE_OR_REJECT => exact Or.inl (by simp [coerce_element, hl, hauto, hnull, harr])
            | DROP => exact Or.inr (Or.inr (by simp [coerce_element, hl, hauto, hnull, harr]))
            | COERCE_OR_DROP =>
              exact Or.inr (Or.inr (by simp [coerce_element, hl, hauto, hnull, harr]))
          | str s =>
            cases dv with
            | REJECT => exact Or.inl (by simp [coerce_element, hl, hauto, hnull, harr])
            | COERCE_OR_REJECT => exact Or.inl (by simp [coerce_element, hl, hauto, hnull, harr])
            | DROP => exact Or.inr (Or.inr (by simp [coerce_element, hl, hauto, hnull, harr]))
            | COERCE_OR_DROP =>
              exact Or.inr (Or.inr (by simp [coerce_element, hl, hauto, hnull, harr]))
          | obj kvs =>
            cases dv with
            | REJECT => exact Or.inl (by simp [coerce_element, hl, hauto, hnull, harr])
            | COERCE_OR_REJECT => exact Or.inl (by simp [coerce_element, hl, hauto, hnull, harr])
            | DROP => exact Or.inr (Or.inr (by simp [coerce_element, hl, hauto, hnull, harr]))
            | COERCE_OR_DROP =>
              exact Or.inr (Or.inr (by simp [coerce_element, hl, hauto, hnull, harr]))
        · rcases hr : coerce_scalar f.ftype dv fb f v false with ⟨o, val, fl⟩
          cases o with
          | err c m =>
            exact Or.inl (by simp [coerce_element, hl, hauto, hnull, harr, hr])
          | ok c =>
            cases val with
            | some w =>
              exact Or.inr (Or.inl ⟨w, by simp [coerce_element, hl, hauto, hnull, harr, hr]⟩)
            | none =>
              exact Or.inr (Or.inr (by simp [coerce_element, hl, hauto, hnull, harr, hr]))

theorem coerce_element_lookup_none {f : field} {doc : Doc} (fb : String) (dv : DIRTY_VALUES)
    {n : String} (hn : lookupDoc doc n = none) :
    lookupDoc (coerce_element f doc fb dv).2 n = none := by
  rcases coerce_element_doc_shape f doc fb dv with h | ⟨w, h⟩ | h
  · rw [h]; exact hn
  · rw [h]; exact lookup_setDoc_none doc n f.name w hn
  · rw [h]; exact lookup_eraseDoc_none doc n f.name hn

theorem coerce_element_arrfield_nonarr_eq {f : field} {doc : Doc} {v : JsonVal}
    (hl : lookupDoc doc f.name = some v) (hauto : ¬ f.ftype = field_type.T_AUTO)
    (hnull : v.isNull = false) (harr : f.is_array = true) (hv : v.isArr = false)
    (fb : String) (dv : DIRTY_VALUES) :
    coerce_element f doc fb dv =
      match dv with
      | .DROP => (.ok 200, eraseDoc doc f.name)
      | .COERCE_OR_DROP => (.ok 200, eraseDoc doc f.name)
      | _ => (.err 400 (notArrayMsg f.name), doc) := by
  cases v with
  | arr xs => exact Bool.noConfusion hv
  | null => exact Bool.noConfusion hnull
  | bool b => cases dv <;> simp [coerce_element, hl, hauto, harr, JsonVal.isNull]
  | int n => cases dv <;> simp [coerce_element, hl, hauto, harr, JsonVal.isNull]
  | flt m e => cases dv <;> simp [coerce_element, hl, hauto, harr, JsonVal.isNull]
  | str s => cases dv <;> simp [coerce_element, hl, hauto, harr, JsonVal.isNull]
  | obj kvs => cases dv <;> simp [coerce_element, hl, hauto, harr, JsonVal.isNull]

theorem coerce_element_ok_post_nonarr {f : field} {doc : Doc} {fb : String}
    {dv : DIRTY_VALUES} {c : Nat} {doc2 : Doc} (hnd : nodupKeys doc = true)
    (h : (match dv with
          | DIRTY_VALUES.DROP => (Outcome.ok 200, eraseDoc doc f.name)
          | DIRTY_VALUES.COERCE_OR_DROP => (Outcome.ok 200, eraseDoc doc f.name)
          | _ => (Outcome.err 400 (notArrayMsg f.name), doc)) = (Outcome.ok c, doc2)) :
    coerce_element f doc2 fb dv = (.ok 200, doc2) := by
  cases dv with
  | REJECT => exact Outcome.noConfusion (congrArg Prod.fst h)
  | COERCE_OR_REJECT => exact Outcome.noConfusion (congrArg Prod.fst h)
  | DROP =>
    injection h with h1 h2
    have hl2 : lookupDoc doc2 f.name = none := by
      rw [← h2]
      exact lookup_eraseDoc_self doc f.name hnd
    simp only [coerce_element, hl2]
  | COERCE_OR_DROP =>
    injection h with h1 h2
    have hl2 : lookupDoc doc2 f.name = none := by
      rw [← h2]
      exact lookup_eraseDoc_self doc f.name hnd
    simp only [coerce_element, hl2]

theorem coerce_element_ok_post {f : field} {doc : Doc} {fb : String} {dv : DIRTY_VALUES}
    {c : Nat} {doc2 : Doc} (hnd : nodupKeys doc = true)
    (h : coerce_element f doc fb dv = (.ok c, doc2)) :
    coerce_element f doc2 fb dv = (.ok 200, doc2) := by
  cases hl : lookupDoc doc f.name with
  | none =>
    simp only [coerce_element, hl] at h
    injection h with h1 h2
    rw [← h2]
    simp only [coerce_element, hl]
  | some v =>
    by_cases hauto : f.ftype = field_type.T_AUTO
    · simp only [coerce_element, hl, if_pos hauto] at h
      injection h with h1 h2
      rw [← h2]
      simp only [coerce_element, hl, if_pos hauto]
    · by_cases hnull : v.isNull = true
      · cases hopt : f.optional with
        | true =>
          simp only [coerce_element, hl, if_neg hauto, hnull, if_true, hopt] at h
          injection h with h1 h2
          rw [← h2]
          simp only [coerce_element, hl, if_neg hauto, hnull, if_true, hopt]
        | false =>
          simp only [coerce_element, hl, if_neg hauto, hnull, if_true, hopt] at h
          exact Outcome.noConfusion (congrArg Prod.fst h)
      · by_cases harr : f.is_array = true
        · cases v with
          | null => exact absurd rfl hnull
          | arr xs =>
            rcases hres : coerce_arr_elems f.ftype dv fb f xs with ⟨o, ys, er⟩
            cases o with
            | err c1 m1 =>
              simp only [coerce_element, hl, if_neg hauto, hnull, Bool.false_eq_true,
                if_false, harr, if_true, hres] at h
              exact Outcome.noConfusion (congrArg Prod.fst h)
            | ok c1 =>
              by_cases hg : (er && ys.isEmpty && !f.optional) = true
              · simp only [coerce_element, hl, if_neg hauto, hnull, Bool.false_eq_true,
                  if_false, harr, if_true, hres, hg] at h
                exact Outcome.noConfusion (congrArg Prod.fst h)
              · simp only [coerce_element, hl, if_neg hauto, hnull, Bool.false_eq_true,
                  if_false, harr, if_true, hres, hg] at h
                injection h with h1 h2
                have hl2 : lookupDoc doc2 f.name = some (.arr ys) := by
                  rw [← h2]
                  exact lookup_setDoc_self doc f.name (JsonVal.arr xs) _ hl
                have hall : ∀ y ∈ ys, scalarMatches f.ftype y = true :=
                  coerce_arr_elems_ok_all hauto dv fb f xs ys c1 er hres
                have hm2 : typeMatches f (.arr ys) = true := by
                  rw [typeMatches_array_eq hauto harr]
                  exact List.all_eq_true.mpr hall
                exact coerce_element_matched hl2 hm2 fb dv
          | bool b =>
            rw [coerce_element_arrfield_nonarr_eq hl hauto rfl harr rfl fb dv] at h
            exact coerce_element_ok_post_nonarr hnd h
          | int n =>
            rw [coerce_element_arrfield_nonarr_eq hl hauto rfl harr rfl fb dv] at h
            exact coerce_element_ok_post_nonarr hnd h
          | flt m e =>
            rw [coerce_element_arrfield_nonarr_eq hl hauto rfl harr rfl fb dv] at h
            exact coerce_element_ok_post_nonarr hnd h
          | str s =>
            rw [coerce_element_arrfield_nonarr_eq hl hauto rfl harr rfl fb dv] at h
            exact coerce_element_ok_post_nonarr hnd h
          | obj kvs =>
            rw [coerce_element_arrfield_nonarr_eq hl hauto rfl harr rfl fb dv] at h
            exact coerce_element_ok_post_nonarr hnd h
        · rcases hr : coerce_scalar f.ftype dv fb f v false with ⟨o, val, fl⟩
          cases o with
          | err c1 m1 =>
            simp only [coerce_element, hl, if_neg hauto, hnull, Bool.false_eq_true,
              if_false, harr, hr] at h
            exact Outcome.noConfusion (congrArg Prod.fst h)
          | ok c1 =>
            cases val with
            | some w =>
              simp only [coerce_element, hl, if_neg hauto, hnull, Bool.false_eq_true,
                if_false, harr, hr] at h
              injection h with h1 h2
              have hl2 : lookupDoc doc2 f.name = some w := by
                rw [← h2]
                exact lookup_setDoc_self doc f.name v w hl
              rcases coerce_scalar_ok_value hauto hr with h5 | ⟨w2, hw2, hmt⟩
              · exact Option.noConfusion h5
              · injection hw2 with hw2
                have hm2 : typeMatches f w = true := by
                  rw [typeMatches_scalar_eq hauto harr, hw2]
                  exact hmt
                exact coerce_element_matched hl2 hm2 fb dv
            | none =>
              simp only [coerce_element, hl, if_neg hauto, hnull, Bool.false_eq_true,
                if_false, harr, hr] at h
              injection h with h1 h2
              have hl2 : lookupDoc doc2 f.name = none := by
                rw [← h2]
                exact lookup_eraseDoc_self doc f.name hnd
              simp only [coerce_element, hl2]

/-! Lemmas about the document validator. -/

theorem validateFields_unchanged (op : index_operation_t) (fb : String) (dv : DIRTY_VALUES) :
    ∀ (schema : List field) (doc : Doc),
      schemaPassesUnchanged op schema doc = true →
      validateFields op fb dv schema doc = (.ok 200, doc) := by
  intro schema
  induction schema with
  | nil => intro doc _; rfl
  | cons f rest ih =>
    intro doc h
    simp only [schemaPassesUnchanged, List.all_cons, Bool.and_eq_true] at h
    obtain ⟨hf, hrest⟩ := h
    by_cases hid : f.name = "id"
    · simp only [validateFields, if_pos hid]
      exact ih doc hrest
    · cases hl : lookupDoc doc f.name with
      | none =>
        have hb : (f.optional || decide (op = index_operation_t.UPDATE)
            || decide (op = index_operation_t.EMPLACE)) = true := by
          simp only [fieldPassesUnchanged, if_neg hid, hl] at hf
          exact hf
        have hskip : f.optional = true ∨ op = index_operation_t.UPDATE
            ∨ op = index_operation_t.EMPLACE := by
          simp only [Bool.or_eq_true, decide_eq_true_eq] at hb
          tauto
        simp only [validateFields, if_neg hid, hl, if_pos hskip]
        exact ih doc hrest
      | some v =>
        have hm : typeMatches f v = true := by
          simp only [fieldPassesUnchanged, if_neg hid, hl] at hf
          exact hf
        simp only [validateFields, if_neg hid, hl, coerce_element_matched hl hm fb dv]
        exact ih doc hrest

theorem validateExtras_unchanged (fb : String) (dv : DIRTY_VALUES) :
    ∀ (names : List String) (doc : Doc),
      extrasPassUnchanged fb names doc = true →
      validateExtras fb dv names doc = (.ok 200, doc) := by
  intro names
  induction names with
  | nil => intro doc _; rfl
  | cons n rest ih =>
    intro doc h
    simp only [extrasPassUnchanged, List.all_cons, Bool.and_eq_true] at h
    obtain ⟨hn, hrest⟩ := h
    cases hp : parseFieldType fb with
    | none =>
      simp only [validateExtras, hp]
      exact ih doc hrest
    | some p =>
      obtain ⟨ft, isArr⟩ := p
      cases hl : lookupDoc doc n with
      | none =>
        simp only [validateExtras, hp, hl]
        exact ih doc hrest
      | some v =>
        have hm : typeMatches ⟨n, ft, isArr, true⟩ v = true := by
          simp only [extraPassesUnchanged, hp, hl] at hn
          exact hn
        have hc := coerce_element_matched (f := ⟨n, ft, isArr, true⟩) hl hm fb dv
        simp only [validateExtras, hp, hl, hc]
        exact ih doc hrest

theorem validateFields_required_absent_err {op : index_operation_t}
    (hop : ¬ (op = index_operation_t.UPDATE ∨ op = index_operation_t.EMPLACE)) (fb : String)
    (dv : DIRTY_VALUES) :
    ∀ (schema : List field) (doc : Doc) (f : field),
      f ∈ schema → ¬ f.name = "id" → f.optional = false → lookupDoc doc f.name = none →
      (validateFields op fb dv schema doc).1.isErr = true := by
  intro schema
  induction schema with
  | nil =>
    intro doc f hf _ _ _
    exact absurd hf (List.not_mem_nil f)
  | cons g rest ih =>
    intro doc f hf hid hopt hl
    rcases List.mem_cons.mp hf with rfl | hf2
    · have hskip : ¬ (f.optional = true ∨ op = index_operation_t.UPDATE
          ∨ op = index_operation_t.EMPLACE) := by
        rintro (h1 | h2)
        · rw [hopt] at h1
          exact Bool.noConfusion h1
        · exact hop h2
      simp only [validateFields, if_neg hid, hl, if_neg hskip]
      rfl
    · by_cases hgid : g.name = "id"
      · simp only [validateFields, if_pos hgid]
        exact ih doc f hf2 hid hopt hl
      · cases hgl : lookupDoc doc g.name with
        | none =>
          by_cases hskip : (g.optional = true ∨ op = index_operation_t.UPDATE
              ∨ op = index_operation_t.EMPLACE)
          · simp only [validateFields, if_neg hgid, hgl, if_pos hskip]
            exact ih doc f hf2 hid hopt hl
          · simp only [validateFields, if_neg hgid, hgl, if_neg hskip]
            rfl
        | some v =>
          rcases hc : coerce_element g doc fb dv with ⟨o, doc2⟩
          cases o with
          | err c m =>
            simp only [validateFields, if_neg hgid, hgl, hc]
            rfl
          | ok c =>
            simp only [validateFields, if_neg hgid, hgl, hc]
            have hl2 : lookupDoc doc2 f.name = none := by
              have hq := @coerce_element_lookup_none g doc fb dv f.name hl
              rw [hc] at hq
              exact hq
            exact ih doc2 f hf2 hid hopt hl2

/-! Helper equations for the per-type conversions. -/

theorem handleMismatch_coerce_some {dv : DIRTY_VALUES}
    (hdv : dv = DIRTY_VALUES.COERCE_OR_REJECT ∨ dv = DIRTY_VALUES.COERCE_OR_DROP)
    (v : JsonVal) (ia : Bool) {conv : Option JsonVal} {w : JsonVal} (hc : conv = some w)
    (msg : String) : handleMismatch dv v ia conv msg = ⟨.ok 200, some w, false⟩ := by
  rcases hdv with rfl | rfl <;> simp [handleMismatch, hc]

theorem handleMismatch_cor_none (v : JsonVal) (ia : Bool) {conv : Option JsonVal}
    (hc : conv = none) (msg : String) :
    handleMismatch DIRTY_VALUES.COERCE_OR_REJECT v ia conv msg = ⟨.err 400 msg, some v, false⟩ := by
  simp [handleMismatch, hc]

theorem handleMismatch_cod_none (v : JsonVal) (ia : Bool) {conv : Option JsonVal}
    (hc : conv = none) (msg : String) :
    handleMismatch DIRTY_VALUES.COERCE_OR_DROP v ia conv msg = ⟨.ok 200, none, ia⟩ := by
  simp [handleMismatch, hc]

theorem coerce_int32_conv_eq {v : JsonVal} (hvi : v.isInt = false)
    (dv : DIRTY_VALUES) (f : field) (ia : Bool) :
    coerce_int32_t dv f v ia =
      handleMismatch dv v ia (convToInt32 v) (typeMismatchMsg f.name "int32") := by
  simp [coerce_int32_t, hvi]

theorem coerce_int64_conv_eq {v : JsonVal} (hvi : v.isInt = false)
    (dv : DIRTY_VALUES) (f : field) (ia : Bool) :
    coerce_int64_t dv f v ia =
      handleMismatch dv v ia (convToInt64 v) (typeMismatchMsg f.name "int64") := by
  simp [coerce_int64_t, hvi]

theorem coerce_float_conv_eq {v : JsonVal} (hvf : v.isFlt = false)
    (dv : DIRTY_VALUES) (f : field) (ia : Bool) :
    coerce_float dv f v ia =
      handleMismatch dv v ia (convToFloat v) (typeMismatchMsg f.name "float") := by
  simp [coerce_float, hvf]

theorem coerce_string_conv_eq {v : JsonVal} (hvs : v.isStr = false)
    (dv : DIRTY_VALUES) (fb : String) (f : field) (ia : Bool) :
    coerce_string dv fb f v ia =
      handleMismatch dv v ia (convToString v) (typeMismatchMsg f.name "string") := by
  simp [coerce_string, hvs]

theorem convToInt32_str (s : String) :
    convToInt32 (.str s) =
      match parseInt s.data with
      | some n => if inInt32Range n then some (.int n) else none
      | none => none := rfl

theorem convToInt64_str (s : String) :
    convToInt64 (.str s) =
      match parseInt s.data with
      | some n => if inInt64Range n then some (.int n) else none
      | none => none := rfl

theorem convToInt32_flt (m : Int) (e : Nat) :
    convToInt32 (.flt m e) =
      if fltIsIntegral m e && inInt32Range (fltToInt m e) then some (.int (fltToInt m e))
      else none := rfl

theorem convToInt32_bool (b : Bool) : convToInt32 (.bool b) = none := rfl

theorem convToString_int (n : Int) :
    convToString (.int n) = some (.str (intToString n)) := rfl

theorem convToString_flt (m : Int) (e : Nat) :
    convToString (.flt m e) = some (.str (fltToString m e)) := rfl

theorem convToInt32_str_some {s : String} {k : Int} (hp : parseInt s.data = some k) :
    convToInt32 (.str s) = if inInt32Range k then some (.int k) else none := by
  rw [convToInt32_str, hp]

theorem convToInt32_str_none {s : String} (hp : parseInt s.data = none) :
    convToInt32 (.str s) = none := by
  rw [convToInt32_str, hp]

theorem convToInt64_str_some {s : String} {k : Int} (hp : parseInt s.data = some k) :
    convToInt64 (.str s) = if inInt64Range k then some (.int k) else none := by
  rw [convToInt64_str, hp]

theorem convToInt64_str_none {s : String} (hp : parseInt s.data = none) :
    convToInt64 (.str s) = none := by
  rw [convToInt64_str, hp]

theorem isFlt_isNum {v : JsonVal} (h : v.isFlt = true) : v.isNum = true := by
  cases v <;> first | rfl | exact Bool.noConfusion h

theorem geoMatches_shapeOk {v : JsonVal} (h : geoMatches v = true) : geoShapeOk v = true := by
  cases v with
  | arr xs =>
    match xs with
    | [a, b] =>
      simp only [geoMatches, Bool.and_eq_true] at h
      simp only [geoShapeOk, Bool.and_eq_true]
      exact ⟨isFlt_isNum h.1, isFlt_isNum h.2⟩
    | [] => exact Bool.noConfusion h
    | [a] => exact Bool.noConfusion h
    | a :: b :: c :: r => exact Bool.noConfusion h
  | null => exact Bool.noConfusion h
  | bool b => exact Bool.noConfusion h
  | int n => exact Bool.noConfusion h
  | flt m e => exact Bool.noConfusion h
  | str s => exact Bool.noConfusion h
  | obj kvs => exact Bool.noConfusion h

/-! Claim theorems. -/

/-- C3: under policy REJECT, a field whose (non-null) value mismatches its
declared type makes the element coercer return a failure outcome, and the
document — in particular the field value — is unchanged. -/
theorem c3_reject_mismatch_fails_unchanged
    (f : field) (doc : Doc) (fb : String) (v : JsonVal)
    (hl : lookupDoc doc f.name = some v) (hnull : v.isNull = false)
    (hm : typeMatches f v = false) :
    (coerce_element f doc fb DIRTY_VALUES.REJECT).1.isErr = true ∧
    (coerce_element f doc fb DIRTY_VALUES.REJECT).2 = doc := by
  by_cases hauto : f.ftype = field_type.T_AUTO
  · exfalso
    simp only [typeMatches, if_pos hauto, hnull] at hm
    exact Bool.noConfusion hm
  · by_cases harr : f.is_array = true
    · cases v with
      | null => exact Bool.noConfusion hnull
      | arr xs =>
        rw [typeMatches_array_eq hauto harr] at hm
        have hex : ∃ x ∈ xs, scalarMatches f.ftype x = false := by
          by_contra hno
          push_neg at hno
          have hall : xs.all (scalarMatches f.ftype) = true := by
            rw [List.all_eq_true]
            intro x hx
            cases hsc : scalarMatches f.ftype x with
            | true => rfl
            | false => exact absurd hsc (hno x hx)
          rw [hall] at hm
          exact Bool.noConfusion hm
        have herr := coerce_arr_elems_reject_err hauto fb f xs hex
        rcases hres : coerce_arr_elems f.ftype DIRTY_VALUES.REJECT fb f xs with ⟨o, ys, er⟩
        rw [hres] at herr
        cases o with
        | ok c => exact Bool.noConfusion herr
        | err c m =>
          constructor
          · simp [coerce_element, hl, hauto, hnull, harr, hres, Outcome.isErr]
          · simp [coerce_element, hl, hauto, hnull, harr, hres]
      | bool b =>
        rw [coerce_element_arrfield_nonarr_eq hl hauto rfl harr rfl fb DIRTY_VALUES.REJECT]
        exact ⟨rfl, rfl⟩
      | int n =>
        rw [coerce_element_arrfield_nonarr_eq hl hauto rfl harr rfl fb DIRTY_VALUES.REJECT]
        exact ⟨rfl, rfl⟩
      | flt m e =>
        rw [coerce_element_arrfield_nonarr_eq hl hauto rfl harr rfl fb DIRTY_VALUES.REJECT]
        exact ⟨rfl, rfl⟩
      | str s =>
        rw [coerce_element_arrfield_nonarr_eq hl hauto rfl harr rfl fb DIRTY_VALUES.REJECT]
        exact ⟨rfl, rfl⟩
      | obj kvs =>
        rw [coerce_element_arrfield_nonarr_eq hl hauto rfl harr rfl fb DIRTY_VALUES.REJECT]
        exact ⟨rfl, rfl⟩
    · rw [typeMatches_scalar_eq hauto harr] at hm
      obtain ⟨h1, h2⟩ := coerce_scalar_mismatch_reject hauto hm fb f false
      rcases hr : coerce_scalar f.ftype DIRTY_VALUES.REJECT fb f v false with ⟨o, val, fl⟩
      rw [hr] at h1 h2
      cases o with
      | ok c => exact Bool.noConfusion h1
      | err c m =>
        constructor
        · simp [coerce_element, hl, hauto, hnull, harr, hr, Outcome.isErr]
        · simp [coerce_element, hl, hauto, hnull, harr, hr]

/-- C3 witness: a concrete REJECT mismatch — an integer at a string-declared
field — fails and leaves the document unchanged. -/
theorem c3_witness :
    (coerce_element ⟨"title", .T_STRING, false, false⟩ [("title", JsonVal.int 5)] ""
      DIRTY_VALUES.REJECT).1.isErr = true ∧
    (coerce_element ⟨"title", .T_STRING, false, false⟩ [("title", JsonVal.int 5)] ""
      DIRTY_VALUES.REJECT).2 = [("title", JsonVal.int 5)] :=
  c3_reject_mismatch_fails_unchanged ⟨"title", .T_STRING, false, false⟩
    [("title", JsonVal.int 5)] "" (JsonVal.int 5) rfl rfl rfl

/-- C4: a value that is not an array of exactly two numeric entries makes
coerce_geopoint return a failure outcome under every one of the four
dirty-value policies; the value is never rewritten or dropped. -/
theorem c4_geopoint_shape_always_hard_failure
    (dv : DIRTY_VALUES) (f : field) (v : JsonVal) (ia : Bool)
    (hshape : geoShapeOk v = false) :
    (coerce_geopoint dv f v ia).outcome.isErr = true ∧
    (coerce_geopoint dv f v ia).value = some v ∧
    (coerce_geopoint dv f v ia).array_ele_erased = false := by
  have hm : geoMatches v = false := by
    cases hq : geoMatches v with
    | false => rfl
    | true =>
      rw [geoMatches_shapeOk hq] at hshape
      exact Bool.noConfusion hshape
  refine ⟨?_, ?_, ?_⟩ <;> simp [coerce_geopoint, hm, hshape, Outcome.isErr]

/-- C4 witness: the spec scenario value loc = [1, 2, 3] is a hard failure
even under DROP. -/
theorem c4_witness :
    (coerce_geopoint DIRTY_VALUES.DROP ⟨"loc", .T_GEOPOINT, false, false⟩
      (.arr [.int 1, .int 2, .int 3]) false).outcome.isErr = true ∧
    (coerce_geopoint DIRTY_VALUES.DROP ⟨"loc", .T_GEOPOINT, false, false⟩
      (.arr [.int 1, .int 2, .int 3]) false).value = some (.arr [.int 1, .int 2, .int 3]) ∧
    (coerce_geopoint DIRTY_VALUES.DROP ⟨"loc", .T_GEOPOINT, false, false⟩
      (.arr [.int 1, .int 2, .int 3]) false).array_ele_erased = false :=
  c4_geopoint_shape_always_hard_failure DIRTY_VALUES.DROP ⟨"loc", .T_GEOPOINT, false, false⟩
    (.arr [.int 1, .int 2, .int 3]) false rfl

/-- C6: for CREATE and UPSERT with a configured default sorting field, a
document in which that field does not resolve to a present, numeric,
non-array value is rejected under every dirty-value policy. -/
theorem c6_sort_field_hard_failure
    (doc : Doc) (sid : Nat) (dsf : String) (schema : List field)
    (op : index_operation_t) (fb : String) (dv : DIRTY_VALUES)
    (hop : op = index_operation_t.CREATE ∨ op = index_operation_t.UPSERT)
    (hdsf : ¬ dsf = "") (hsf : sortFieldOk doc dsf = false) :
    (validate_index_in_memory doc sid dsf schema op fb dv).1.isErr = true := by
  have hdel : ¬ op = index_operation_t.DELETE := by
    rcases hop with rfl | rfl <;> intro hc <;> exact index_operation_t.noConfusion hc
  have h2 : (!hasField doc "id" && !opAutoAssignsId op) = false := by
    rcases hop with rfl | rfl <;> simp [opAutoAssignsId]
  have h3 : ((decide (op = index_operation_t.CREATE) || decide (op = index_operation_t.UPSERT))
      && !(decide (dsf = "")) && !sortFieldOk doc dsf) = true := by
    rcases hop with rfl | rfl <;> simp [hdsf, hsf]
  simp only [validate_index_in_memory, if_neg hdel, h2, Bool.false_eq_true, if_false, h3, if_true]
  rfl

/-- C6 witness: CREATE with sort field price absent from the document fails
even under COERCE_OR_DROP. -/
theorem c6_witness :
    (validate_index_in_memory [("id", JsonVal.str "1")] 0 "price"
      [⟨"price", .T_FLOAT, false, true⟩] index_operation_t.CREATE ""
      DIRTY_VALUES.COERCE_OR_DROP).1.isErr = true :=
  c6_sort_field_hard_failure [("id", JsonVal.str "1")] 0 "price"
    [⟨"price", .T_FLOAT, false, true⟩] index_operation_t.CREATE ""
    DIRTY_VALUES.COERCE_OR_DROP (Or.inl rfl) (by decide) rfl

/-- C7: under operation DELETE a document lacking the reserved identifier
field is rejected with the missing-identifier failure. -/
theorem c7_delete_missing_identifier
    (doc : Doc) (sid : Nat) (dsf : String) (schema : List field) (fb : String)
    (dv : DIRTY_VALUES) (hid : hasField doc "id" = false) :
    validate_index_in_memory doc sid dsf schema index_operation_t.DELETE fb dv =
      (.err 400 missingIdMsg, doc) := by
  simp [validate_index_in_memory, hid]

/-- C7 witness: DELETE on the empty document fails with the
missing-identifier failure. -/
theorem c7_witness :
    validate_index_in_memory [] 0 "" [] index_operation_t.DELETE "" DIRTY_VALUES.REJECT =
      (.err 400 missingIdMsg, []) :=
  c7_delete_missing_identifier [] 0 "" [] "" DIRTY_VALUES.REJECT rfl

/-- C1 counterexample: a document whose every field matches its declared type
(the single field x is a string as declared) is still rejected by
validate_index_in_memory — here under CREATE, because a second declared
required field y is absent — so success does not follow from
"every field already matches its declared type" alone. -/
theorem c1_counterexample :
    docFieldsMatchSchema [("x", JsonVal.str "a")]
      [⟨"x", .T_STRING, false, false⟩, ⟨"y", .T_STRING, false, false⟩] = true ∧
    (validate_index_in_memory [("x", JsonVal.str "a")] 0 ""
      [⟨"x", .T_STRING, false, false⟩, ⟨"y", .T_STRING, false, false⟩]
      index_operation_t.CREATE "" DIRTY_VALUES.REJECT).1.isOk = false := by
  constructor
  · rfl
  · rfl

/-- C1 (amended): for every operation and policy, a document that contains the
identifier field, in which every schema-declared field is present and already
matches its declared type, whose configured default sorting field resolves to
a numeric non-array value (or none is configured), and whose non-schema fields
each pass the configured fallback type unchanged (or no fallback is
configured), is accepted by validate_index_in_memory and left identical. -/
theorem c1_conforming_validate_unchanged
    (doc : Doc) (sid : Nat) (dsf : String) (schema : List field)
    (op : index_operation_t) (fb : String) (dv : DIRTY_VALUES)
    (hid : hasField doc "id" = true)
    (hschema : schemaConforms schema doc = true)
    (hsort : dsf = "" ∨ sortFieldOk doc dsf = true)
    (hextra : extrasPassUnchanged fb (extraNames doc schema) doc = true) :
    validate_index_in_memory doc sid dsf schema op fb dv = (.ok 200, doc) := by
  by_cases hdel : op = index_operation_t.DELETE
  · simp [validate_index_in_memory, hdel, hid]
  · have h2 : (!hasField doc "id" && !opAutoAssignsId op) = false := by
      rw [hid]
      rfl
    have hschemaPass : schemaPassesUnchanged op schema doc = true := by
      simp only [schemaPassesUnchanged, List.all_eq_true]
      intro f hf
      have hc := List.all_eq_true.mp hschema f hf
      rw [fieldPassesUnchanged]
      by_cases hfid : f.name = "id"
      · rw [if_pos hfid]
      · rw [if_neg hfid]
        rw [if_neg hfid] at hc
        cases hl : lookupDoc doc f.name with
        | some v =>
          rw [hl] at hc
          exact hc
        | none =>
          rw [hl] at hc
          exact Bool.noConfusion hc
    have h3 : ((decide (op = index_operation_t.CREATE) || decide (op = index_operation_t.UPSERT))
        && !(decide (dsf = "")) && !sortFieldOk doc dsf) = false := by
      rcases hsort with h | h
      · subst h
        simp
      · rw [h]
        simp
    simp only [validate_index_in_memory, if_neg hdel, h2, Bool.false_eq_true, if_false,
      h3, validateFields_unchanged op fb dv schema doc hschemaPass]
    exact validateExtras_unchanged fb dv (extraNames doc schema) doc hextra

/-- C1 witness: a fully conforming concrete document is accepted unchanged
under CREATE with policy REJECT. -/
theorem c1_witness :
    validate_index_in_memory [("id", JsonVal.str "1"), ("x", JsonVal.str "a")] 0 ""
      [⟨"x", .T_STRING, false, false⟩] index_operation_t.CREATE "" DIRTY_VALUES.REJECT =
      (.ok 200, [("id", JsonVal.str "1"), ("x", JsonVal.str "a")]) :=
  c1_conforming_validate_unchanged [("id", JsonVal.str "1"), ("x", JsonVal.str "a")] 0 ""
    [⟨"x", .T_STRING, false, false⟩] index_operation_t.CREATE "" DIRTY_VALUES.REJECT
    rfl rfl (Or.inl rfl) rfl

/-- C2: field-presence requirements depend on the operation — (a) under
CREATE and UPSERT a non-optional declared field absent from the document
forces a failure outcome; (b) under UPDATE and EMPLACE absent declared fields
are skipped and a document whose supplied fields all match is accepted
unchanged; (c) under DELETE the call is decided by identifier presence
alone. -/
theorem c2_presence_rules_by_operation :
    (∀ (doc : Doc) (sid : Nat) (dsf : String) (schema : List field) (f : field)
        (op : index_operation_t) (fb : String) (dv : DIRTY_VALUES),
        (op = index_operation_t.CREATE ∨ op = index_operation_t.UPSERT) →
        f ∈ schema → ¬ f.name = "id" → f.optional = false →
        lookupDoc doc f.name = none →
        (validate_index_in_memory doc sid dsf schema op fb dv).1.isErr = true)
    ∧ (∀ (doc : Doc) (sid : Nat) (dsf : String) (schema : List field)
        (op : index_operation_t) (fb : String) (dv : DIRTY_VALUES),
        (op = index_operation_t.UPDATE ∨ op = index_operation_t.EMPLACE) →
        hasField doc "id" = true →
        presentFieldsMatch schema doc = true →
        extrasPassUnchanged fb (extraNames doc schema) doc = true →
        validate_index_in_memory doc sid dsf schema op fb dv = (.ok 200, doc))
    ∧ (∀ (doc : Doc) (sid : Nat) (dsf : String) (schema : List field)
        (fb : String) (dv : DIRTY_VALUES),
        validate_index_in_memory doc sid dsf schema index_operation_t.DELETE fb dv =
          (if hasField doc "id" then ((.ok 200 : Outcome), doc)
           else (.err 400 missingIdMsg, doc))) := by
  refine ⟨?_, ?_, ?_⟩
  · intro doc sid dsf schema f op fb dv hop hf hid hopt hl
    have hdel : ¬ op = index_operation_t.DELETE := by
      rcases hop with rfl | rfl <;> intro hc <;> exact index_operation_t.noConfusion hc
    have h2 : (!hasField doc "id" && !opAutoAssignsId op) = false := by
      rcases hop with rfl | rfl <;> simp [opAutoAssignsId]
    have hopue : ¬ (op = index_operation_t.UPDATE ∨ op = index_operation_t.EMPLACE) := by
      rcases hop with rfl | rfl <;> rintro (hc | hc) <;> exact index_operation_t.noConfusion hc
    by_cases h3 : ((decide (op = index_operation_t.CREATE)
        || decide (op = index_operation_t.UPSERT))
        && !(decide (dsf = "")) && !sortFieldOk doc dsf) = true
    · simp only [validate_index_in_memory, if_neg hdel, h2, Bool.false_eq_true, if_false,
        h3, if_true]
      rfl
    · have herr := validateFields_required_absent_err hopue fb dv schema doc f hf hid hopt hl
      rcases hv : validateFields op fb dv schema doc with ⟨o, d2⟩
      rw [hv] at herr
      cases o with
      | ok c => exact Bool.noConfusion herr
      | err c m =>
        simp only [validate_index_in_memory, if_neg hdel, h2, Bool.false_eq_true, if_false,
          h3, hv]
        rfl
  · intro doc sid dsf schema op fb dv hop hid hmatch hextra
    have hdel : ¬ op = index_operation_t.DELETE := by
      rcases hop with rfl | rfl <;> intro hc <;> exact index_operation_t.noConfusion hc
    have h2 : (!hasField doc "id" && !opAutoAssignsId op) = false := by
      rw [hid]
      rfl
    have h3 : ((decide (op = index_operation_t.CREATE)
        || decide (op = index_operation_t.UPSERT))
        && !(decide (dsf = "")) && !sortFieldOk doc dsf) = false := by
      rcases hop with rfl | rfl <;> simp
    have hschemaPass : schemaPassesUnchanged op schema doc = true := by
      simp only [schemaPassesUnchanged, List.all_eq_true]
      intro f hf
      have hc := List.all_eq_true.mp hmatch f hf
      rw [fieldPassesUnchanged]
      by_cases hfid : f.name = "id"
      · rw [if_pos hfid]
      · rw [if_neg hfid]
        rw [if_neg hfid] at hc
        cases hl : lookupDoc doc f.name with
        | some v =>
          rw [hl] at hc
          exact hc
        | none =>
          rcases hop with rfl | rfl <;> simp
    simp only [validate_index_in_memory, if_neg hdel, h2, Bool.false_eq_true, if_false,
      h3, validateFields_unchanged op fb dv schema doc hschemaPass]
    exact validateExtras_unchanged fb dv (extraNames doc schema) doc hextra
  · intro doc sid dsf schema fb dv
    cases hField : hasField doc "id" <;> simp [validate_index_in_memory, hField]

/-- C2 witness: the three clauses at concrete inputs — CREATE with a missing
required field fails; UPDATE on a partial document with only matching supplied
fields succeeds unchanged; DELETE is decided by identifier presence. -/
theorem c2_witness :
    (validate_index_in_memory [("id", JsonVal.str "7")] 0 ""
      [⟨"x", .T_STRING, false, false⟩] index_operation_t.CREATE ""
      DIRTY_VALUES.REJECT).1.isErr = true ∧
    validate_index_in_memory [("id", JsonVal.str "9")] 0 ""
      [⟨"x", .T_STRING, false, false⟩] index_operation_t.UPDATE ""
      DIRTY_VALUES.REJECT = (.ok 200, [("id", JsonVal.str "9")]) ∧
    validate_index_in_memory [("id", JsonVal.str "3")] 0 "" []
      index_operation_t.DELETE "" DIRTY_VALUES.REJECT =
      (if hasField [("id", JsonVal.str "3")] "id"
       then ((.ok 200 : Outcome), [("id", JsonVal.str "3")])
       else (.err 400 missingIdMsg, [("id", JsonVal.str "3")])) :=
  ⟨c2_presence_rules_by_operation.1 [("id", JsonVal.str "7")] 0 ""
      [⟨"x", .T_STRING, false, false⟩] ⟨"x", .T_STRING, false, false⟩
      index_operation_t.CREATE "" DIRTY_VALUES.REJECT (Or.inl rfl)
      (List.mem_cons_self _ _) (by decide) rfl rfl,
   c2_presence_rules_by_operation.2.1 [("id", JsonVal.str "9")] 0 ""
      [⟨"x", .T_STRING, false, false⟩] index_operation_t.UPDATE ""
      DIRTY_VALUES.REJECT (Or.inl rfl) rfl rfl rfl,
   c2_presence_rules_by_operation.2.2 [("id", JsonVal.str "3")] 0 "" [] ""
      DIRTY_VALUES.REJECT⟩

/-- C5: under a coercing policy, coerce_int32_t converts a string value
exactly when it parses as an integer literal in 32-bit range, converts a float
value exactly when it is integral and its integer value is in 32-bit range,
never turns a boolean into an integer, and on every unconvertible value the
fail branch of the active policy applies (reject keeps the value and fails,
drop erases it and succeeds). -/
theorem c5_int32_coercion_characterization
    (dv : DIRTY_VALUES) (f : field) (ia : Bool)
    (hdv : dv = DIRTY_VALUES.COERCE_OR_REJECT ∨ dv = DIRTY_VALUES.COERCE_OR_DROP) :
    (∀ (s : String) (n : Int),
       ((coerce_int32_t dv f (.str s) ia).outcome.isOk = true ∧
        (coerce_int32_t dv f (.str s) ia).value = some (.int n))
       ↔ (parseInt s.data = some n ∧ inInt32Range n = true))
    ∧ (∀ (m : Int) (e : Nat),
       ((coerce_int32_t dv f (.flt m e) ia).outcome.isOk = true ∧
        (coerce_int32_t dv f (.flt m e) ia).value = some (.int (fltToInt m e)))
       ↔ (fltIsIntegral m e = true ∧ inInt32Range (fltToInt m e) = true))
    ∧ (∀ (b : Bool) (w : JsonVal),
        (coerce_int32_t dv f (.bool b) ia).value = some w → w = .bool b)
    ∧ (∀ v : JsonVal, v.isInt = false → convToInt32 v = none →
        (dv = DIRTY_VALUES.COERCE_OR_REJECT →
          (coerce_int32_t dv f v ia).outcome.isErr = true ∧
          (coerce_int32_t dv f v ia).value = some v)
        ∧ (dv = DIRTY_VALUES.COERCE_OR_DROP →
          (coerce_int32_t dv f v ia).outcome = .ok 200 ∧
          (coerce_int32_t dv f v ia).value = none)) := by
  have hkey : ∀ v : JsonVal, v.isInt = false →
      coerce_int32_t dv f v ia =
        handleMismatch dv v ia (convToInt32 v) (typeMismatchMsg f.name "int32") :=
    fun v hv => coerce_int32_conv_eq hv dv f ia
  refine ⟨?_, ?_, ?_, ?_⟩
  · intro s n
    cases hp : parseInt s.data with
    | none =>
      rw [hkey (.str s) rfl, convToInt32_str_none hp]
      constructor
      · rintro ⟨hok, hval⟩
        exfalso
        rcases hdv with rfl | rfl
        · rw [handleMismatch_cor_none _ _ rfl _] at hok
          exact Bool.noConfusion hok
        · rw [handleMismatch_cod_none _ _ rfl _] at hval
          exact Option.noConfusion hval
      · rintro ⟨hpe, _⟩
        exact Option.noConfusion hpe
    | some k =>
      rw [hkey (.str s) rfl, convToInt32_str_some hp]
      by_cases hr : inInt32Range k = true
      · rw [if_pos hr, handleMismatch_coerce_some hdv _ _ rfl _]
        constructor
        · rintro ⟨hok, hval⟩
          injection hval with hval
          injection hval with hval
          subst hval
          exact ⟨rfl, hr⟩
        · rintro ⟨hpe, hre⟩
          injection hpe with hpe
          subst hpe
          exact ⟨rfl, rfl⟩
      · rw [if_neg hr]
        constructor
        · rintro ⟨hok, hval⟩
          exfalso
          rcases hdv with rfl | rfl
          · rw [handleMismatch_cor_none _ _ rfl _] at hok
            exact Bool.noConfusion hok
          · rw [handleMismatch_cod_none _ _ rfl _] at hval
            exact Option.noConfusion hval
        · rintro ⟨hpe, hre⟩
          injection hpe with hpe
          subst hpe
          exact absurd hre hr
  · intro m e
    rw [hkey (.flt m e) rfl, convToInt32_flt]
    by_cases hcond : (fltIsIntegral m e && inInt32Range (fltToInt m e)) = true
    · rw [if_pos hcond, handleMismatch_coerce_some hdv _ _ rfl _]
      constructor
      · intro _
        have hcond2 : fltIsIntegral m e = true ∧ inInt32Range (fltToInt m e) = true := by
          simpa using hcond
        exact hcond2
      · intro _
        exact ⟨rfl, rfl⟩
    · rw [if_neg hcond]
      constructor
      · rintro ⟨hok, hval⟩
        exfalso
        rcases hdv with rfl | rfl
        · rw [handleMismatch_cor_none _ _ rfl _] at hok
          exact Bool.noConfusion hok
        · rw [handleMismatch_cod_none _ _ rfl _] at hval
          exact Option.noConfusion hval
      · rintro ⟨hint, hrange⟩
        exact absurd (by simp [hint, hrange] :
          (fltIsIntegral m e && inInt32Range (fltToInt m e)) = true) hcond
  · intro b w
    rw [hkey (.bool b) rfl, convToInt32_bool]
    rcases hdv with rfl | rfl
    · rw [handleMismatch_cor_none _ _ rfl _]
      intro h
      injection h with h
      exact h.symm
    · rw [handleMismatch_cod_none _ _ rfl _]
      intro h
      exact Option.noConfusion h
  · intro v hvi hconv
    constructor
    · intro hdc
      subst hdc
      rw [hkey v hvi, handleMismatch_cor_none _ _ hconv _]
      exact ⟨rfl, rfl⟩
    · intro hdc
      subst hdc
      rw [hkey v hvi, handleMismatch_cod_none _ _ hconv _]
      exact ⟨rfl, rfl⟩

/-- C5 witness: under COERCE_OR_REJECT the string "123" converts to the
integer 123 at an int32 field. -/
theorem c5_witness :
    (coerce_int32_t DIRTY_VALUES.COERCE_OR_REJECT ⟨"num", .T_INT32, false, false⟩
      (.str "123") false).outcome.isOk = true ∧
    (coerce_int32_t DIRTY_VALUES.COERCE_OR_REJECT ⟨"num", .T_INT32, false, false⟩
      (.str "123") false).value = some (.int 123) :=
  ((c5_int32_coercion_characterization DIRTY_VALUES.COERCE_OR_REJECT
      ⟨"num", .T_INT32, false, false⟩ false (Or.inl rfl)).1 "123" 123).mpr
    ⟨rfl, rfl⟩

/-- C8: coercion through the element coercer is idempotent — whenever a call
succeeds on a document with distinct keys, running the same call again on the
resulting document succeeds and leaves the document identical. -/
theorem c8_coercion_idempotent
    (f : field) (doc : Doc) (fb : String) (dv : DIRTY_VALUES) (c : Nat) (doc2 : Doc)
    (hnd : nodupKeys doc = true)
    (h : coerce_element f doc fb dv = (.ok c, doc2)) :
    coerce_element f doc2 fb dv = (.ok 200, doc2) :=
  coerce_element_ok_post hnd h

/-- C8 witness: coercing the already-coerced document again succeeds and
changes nothing — the string "7" became the integer 7, and a second pass
keeps it. -/
theorem c8_witness :
    coerce_element ⟨"x", .T_INT32, false, false⟩ [("x", JsonVal.int 7)] ""
      DIRTY_VALUES.COERCE_OR_REJECT = (.ok 200, [("x", JsonVal.int 7)]) :=
  c8_coercion_idempotent ⟨"x", .T_INT32, false, false⟩ [("x", JsonVal.str "7")] ""
    DIRTY_VALUES.COERCE_OR_REJECT 200 [("x", JsonVal.int 7)] rfl rfl

/-- C9: under a coercing policy a numeric value coerces to its canonical
string, and that string coerces back to the original numeric value (an
integer round-trips through coerce_int32_t or coerce_int64_t when in range, a
float through coerce_float exactly); a fractional float string fails integer
conversion instead of truncating, with the fail branch of the active policy
applying. -/
theorem c9_numeric_string_round_trip
    (dv : DIRTY_VALUES) (f g : field) (fb : String) (ia ib : Bool)
    (hdv : dv = DIRTY_VALUES.COERCE_OR_REJECT ∨ dv = DIRTY_VALUES.COERCE_OR_DROP) :
    (∀ n : Int,
      (coerce_string dv fb f (.int n) ia).value = some (.str (intToString n))
      ∧ (inInt32Range n = true →
          (coerce_int32_t dv g (.str (intToString n)) ib).value = some (.int n) ∧
          (coerce_int32_t dv g (.str (intToString n)) ib).outcome = .ok 200)
      ∧ (inInt64Range n = true →
          (coerce_int64_t dv g (.str (intToString n)) ib).value = some (.int n) ∧
          (coerce_int64_t dv g (.str (intToString n)) ib).outcome = .ok 200))
    ∧ (∀ (m : Int) (e : Nat),
      (coerce_string dv fb f (.flt m e) ia).value = some (.str (fltToString m e))
      ∧ ((coerce_float dv g (.str (fltToString m e)) ib).value = some (.flt m e) ∧
         (coerce_float dv g (.str (fltToString m e)) ib).outcome = .ok 200)
      ∧ (fltIsIntegral m e = false →
          convToInt32 (.str (fltToString m e)) = none ∧
          convToInt64 (.str (fltToString m e)) = none ∧
          (dv = DIRTY_VALUES.COERCE_OR_REJECT →
            (coerce_int32_t dv g (.str (fltToString m e)) ib).outcome.isErr = true ∧
            (coerce_int64_t dv g (.str (fltToString m e)) ib).outcome.isErr = true)
          ∧ (dv = DIRTY_VALUES.COERCE_OR_DROP →
            (coerce_int32_t dv g (.str (fltToString m e)) ib).value = none ∧
            (coerce_int64_t dv g (.str (fltToString m e)) ib).value = none))) := by
  refine ⟨?_, ?_⟩
  · intro n
    refine ⟨?_, ?_, ?_⟩
    · rw [coerce_string_conv_eq (v := .int n) rfl dv fb f ia,
        handleMismatch_coerce_some hdv _ _ (convToString_int n) _]
    · intro hr32
      have hp : parseInt (intToString n).data = some n := parseInt_renderInt n
      have hconv : convToInt32 (.str (intToString n)) = some (.int n) := by
        rw [convToInt32_str_some hp, if_pos hr32]
      rw [coerce_int32_conv_eq (v := .str (intToString n)) rfl dv g ib,
        handleMismatch_coerce_some hdv _ _ hconv _]
      exact ⟨rfl, rfl⟩
    · intro hr64
      have hp : parseInt (intToString n).data = some n := parseInt_renderInt n
      have hconv : convToInt64 (.str (intToString n)) = some (.int n) := by
        rw [convToInt64_str_some hp, if_pos hr64]
      rw [coerce_int64_conv_eq (v := .str (intToString n)) rfl dv g ib,
        handleMismatch_coerce_some hdv _ _ hconv _]
      exact ⟨rfl, rfl⟩
  · intro m e
    refine ⟨?_, ?_, ?_⟩
    · rw [coerce_string_conv_eq (v := .flt m e) rfl dv fb f ia,
        handleMismatch_coerce_some hdv _ _ (convToString_flt m e) _]
    · have hpf : parseFlt (fltToString m e).data = some (m, e) := parseFlt_renderFlt m e
      have hconv : convToFloat (.str (fltToString m e)) = some (.flt m e) := by
        show (parseFlt (fltToString m e).data).map (fun p => JsonVal.flt p.1 p.2) = _
        rw [hpf]
        rfl
      rw [coerce_float_conv_eq (v := .str (fltToString m e)) rfl dv g ib,
        handleMismatch_coerce_some hdv _ _ hconv _]
      exact ⟨rfl, rfl⟩
    · intro hfrac
      have hpi : parseInt (fltToString m e).data = none :=
        parseInt_renderFlt_frac m (fltIsIntegral_false_pos hfrac)
      have hc32 : convToInt32 (.str (fltToString m e)) = none := by
        rw [convToInt32_str, hpi]
      have hc64 : convToInt64 (.str (fltToString m e)) = none := by
        rw [convToInt64_str, hpi]
      refine ⟨hc32, hc64, ?_, ?_⟩
      · intro hdc
        subst hdc
        rw [coerce_int32_conv_eq (v := .str (fltToString m e)) rfl _ g ib,
          handleMismatch_cor_none _ _ hc32 _,
          coerce_int64_conv_eq (v := .str (fltToString m e)) rfl _ g ib,
          handleMismatch_cor_none _ _ hc64 _]
        exact ⟨rfl, rfl⟩
      · intro hdc
        subst hdc
        rw [coerce_int32_conv_eq (v := .str (fltToString m e)) rfl _ g ib,
          handleMismatch_cod_none _ _ hc32 _,
          coerce_int64_conv_eq (v := .str (fltToString m e)) rfl _ g ib,
          handleMismatch_cod_none _ _ hc64 _]
        exact ⟨rfl, rfl⟩

/-- C9 witness: the integer 42 and the float 19.99 round-trip through their
canonical strings under COERCE_OR_REJECT. -/
theorem c9_witness :
    inInt32Range 42 = true ∧
    (coerce_int32_t DIRTY_VALUES.COERCE_OR_REJECT ⟨"n", .T_INT32, false, false⟩
      (.str (intToString 42)) false).value = some (.int 42) ∧
    (coerce_float DIRTY_VALUES.COERCE_OR_REJECT ⟨"p", .T_FLOAT, false, false⟩
      (.str (fltToString 1999 2)) false).value = some (.flt 1999 2) :=
  ⟨rfl,
   (((c9_numeric_string_round_trip DIRTY_VALUES.COERCE_OR_REJECT
        ⟨"s", .T_STRING, false, false⟩ ⟨"n", .T_INT32, false, false⟩ "" false false
        (Or.inl rfl)).1 42).2.1 rfl).1,
   ((((c9_numeric_string_round_trip DIRTY_VALUES.COERCE_OR_REJECT
        ⟨"s", .T_STRING, false, false⟩ ⟨"p", .T_FLOAT, false, false⟩ "" false false
        (Or.inl rfl)).2 1999 2).2.1).1)⟩

theorem coerce_arr_elems_fb_indep {ftype : field_type} (hft : ¬ ftype = field_type.T_STRING)
    (dv : DIRTY_VALUES) (f : field) (fb1 fb2 : String) :
    ∀ xs : List JsonVal,
      coerce_arr_elems ftype dv fb1 f xs = coerce_arr_elems ftype dv fb2 f xs := by
  intro xs
  induction xs with
  | nil => rfl
  | cons x xs ih =>
    have hs : coerce_scalar ftype dv fb1 f x true = coerce_scalar ftype dv fb2 f x true := by
      cases ftype with
      | T_STRING => exact absurd rfl hft
      | T_INT32 => rfl
      | T_INT64 => rfl
      | T_FLOAT => rfl
      | T_BOOL => rfl
      | T_GEOPOINT => rfl
      | T_AUTO => rfl
    simp only [coerce_arr_elems, hs, ih]

/-- C10: noninterference of the configured fallback field type on the
non-string coercers — two runs differing only in the fallback type produce
identical coercer output (outcome, value, erased signal) and an identical
document through the element coercer, for every field typed int32, int64,
float, bool or geopoint; only the string coercer even receives the fallback
type. -/
theorem c10_fallback_noninterference :
    (∀ (ftype : field_type) (dv : DIRTY_VALUES) (f : field) (v : JsonVal) (ia : Bool)
       (fb1 fb2 : String),
       (ftype = field_type.T_INT32 ∨ ftype = field_type.T_INT64 ∨
        ftype = field_type.T_FLOAT ∨ ftype = field_type.T_BOOL ∨
        ftype = field_type.T_GEOPOINT) →
       coerce_scalar ftype dv fb1 f v ia = coerce_scalar ftype dv fb2 f v ia)
    ∧ (∀ (f : field) (doc : Doc) (dv : DIRTY_VALUES) (fb1 fb2 : String),
       (f.ftype = field_type.T_INT32 ∨ f.ftype = field_type.T_INT64 ∨
        f.ftype = field_type.T_FLOAT ∨ f.ftype = field_type.T_BOOL ∨
        f.ftype = field_type.T_GEOPOINT) →
       coerce_element f doc fb1 dv = coerce_element f doc fb2 dv) := by
  constructor
  · intro ftype dv f v ia fb1 fb2 hft
    rcases hft with rfl | rfl | rfl | rfl | rfl <;> rfl
  · intro f doc dv fb1 fb2 hft
    have hfs : ¬ f.ftype = field_type.T_STRING := by
      rcases hft with h | h | h | h | h <;> rw [h] <;> intro hc <;>
        exact field_type.noConfusion hc
    have hscalar : ∀ (w : JsonVal) (ib : Bool),
        coerce_scalar f.ftype dv fb1 f w ib = coerce_scalar f.ftype dv fb2 f w ib := by
      intro w ib
      cases hx : f.ftype with
      | T_STRING => exact absurd hx hfs
      | T_INT32 => rfl
      | T_INT64 => rfl
      | T_FLOAT => rfl
      | T_BOOL => rfl
      | T_GEOPOINT => rfl
      | T_AUTO => rfl
    simp only [coerce_element, hscalar, coerce_arr_elems_fb_indep hfs dv f fb1 fb2]

/-- C10 witness: an int32-typed field coerces identically under two different
fallback types, both per value and per document. -/
theorem c10_witness :
    coerce_scalar field_type.T_INT32 DIRTY_VALUES.COERCE_OR_REJECT "string"
      ⟨"n", .T_INT32, false, false⟩ (.str "5") false =
    coerce_scalar field_type.T_INT32 DIRTY_VALUES.COERCE_OR_REJECT "float[]"
      ⟨"n", .T_INT32, false, false⟩ (.str "5") false ∧
    coerce_element ⟨"n", .T_INT32, false, false⟩ [("n", JsonVal.str "5")] "string"
      DIRTY_VALUES.COERCE_OR_REJECT =
    coerce_element ⟨"n", .T_INT32, false, false⟩ [("n", JsonVal.str "5")] "float[]"
      DIRTY_VALUES.COERCE_OR_REJECT :=
  ⟨c10_fallback_noninterference.1 field_type.T_INT32 DIRTY_VALUES.COERCE_OR_REJECT
      ⟨"n", .T_INT32, false, false⟩ (.str "5") false "string" "float[]" (Or.inl rfl),
   c10_fallback_noninterference.2 ⟨"n", .T_INT32, false, false⟩ [("n", JsonVal.str "5")]
      DIRTY_VALUES.COERCE_OR_REJECT "string" "float[]" (Or.inl rfl)⟩

end Validator

